import Mathlib

/-!
Verification development for `tensorflow/python/framework/auto_control_deps.py`.

The file shallowly embeds the data model and the operations of the automatic
control-dependency pass:

* a `Graph` is an arena of `Operation`s in construction order, with a tensor
  table and a table of control-flow contexts (all referenced by integer
  handles, mirroring the reference/identity semantics of the source);
* `opIsStateful` is the classification function `op_is_stateful`;
* `processSwitch` embeds `AutomaticControlDependencies._process_switch`;
* `stepOp` embeds one iteration of the main loop of
  `AutomaticControlDependencies.__exit__`, and `runEngine` the whole loop;
* `markAsReturn`, `acdEnter`, `acdExit` embed `mark_as_return`, `__enter__`
  and `__exit__` of the context manager.

External primitives of the repository that are not part of the single source
file (identity creation, merge creation, the control-edge mutation primitive,
the while-loop test) are modelled from the specification and carry a
`Modelled from the spec:` doc comment.
-/

/-- A dtype tag; the only distinction the pass ever makes is whether a tensor
has the distinguished resource-handle dtype. -/
inductive DType where
  | resource
  | other
deriving DecidableEq, Repr

/-- A tensor record: the operation that produces it and its dtype.  Tensors
are referenced by their index in the graph's tensor table, which plays the
role of `ops.tensor_id` (identity of the tensor object). -/
structure TensorInfo where
  producer : Nat
  dtype : DType
deriving DecidableEq, Repr

/-- A control-flow context: an optional outer context and whether this context
is an (unsupported) iterative/while context.  Contexts are referenced by
index; two operations are in the same branch iff their context handles are
equal, mirroring identity comparison in the source. -/
structure CFContext where
  outer : Option Nat
  isWhile : Bool
deriving DecidableEq, Repr

/-- An operation record: op-kind name, ordered input tensor handles, output
tensor handles, optional enclosing control-flow context, the stateful flag,
and the mutable set of control-only input edges (kept as a duplicate-free
list of operation handles). -/
structure Operation where
  opType : String
  inputs : List Nat
  outputs : List Nat
  ctx : Option Nat
  isStateful : Bool
  controlInputs : List Nat
deriving DecidableEq, Repr

/-- The graph: an identity, the ordered sequence of operations in construction
order, the tensor table, the context table, the set of registered op kinds
(`graph._registered_ops`), and the `_add_control_dependencies` flag together
with the outer graph's value of that flag (`none` models the absence of an
`outer_graph` attribute). -/
structure Graph where
  gid : Nat
  ops : List Operation
  tensors : List TensorInfo
  contexts : List CFContext
  registeredOps : List String
  addControlDependencies : Bool
  outerAddControlDependencies : Option Bool
deriving DecidableEq, Repr

def defaultOp : Operation :=
  { opType := "", inputs := [], outputs := [], ctx := none,
    isStateful := false, controlInputs := [] }

def defaultTensor : TensorInfo := { producer := 0, dtype := DType.other }

def defaultCtx : CFContext := { outer := none, isWhile := false }

def getOp (g : Graph) (i : Nat) : Operation := g.ops.getD i defaultOp

def getTensor (g : Graph) (t : Nat) : TensorInfo := g.tensors.getD t defaultTensor

def getCtx (g : Graph) (c : Nat) : CFContext := g.contexts.getD c defaultCtx

/-- Association-list lookup (first match wins); used for the engine's
identity-keyed dictionaries, where update is modelled by prepending. -/
def alookup {α β : Type} [DecidableEq α] : List (α × β) → α → Option β
  | [], _ => none
  | (k, v) :: rest, key => if k = key then some v else alookup rest key

/-- Set-like insertion into a list (used for Python `set.add`). -/
def insertIfAbsent (l : List Nat) (x : Nat) : List Nat :=
  if x ∈ l then l else l ++ [x]

def listModify {α : Type} : List α → Nat → (α → α) → List α
  | [], _, _ => []
  | x :: xs, 0, f => f x :: xs
  | x :: xs, i + 1, f => x :: listModify xs i f

/-- Modelled from the spec: the graph-mutation primitive
(`Operation._add_control_input`, outside the source file) appends a
control-only edge to an existing operation; per the data model, the
control-only input edges of an operation form a set, so adding an edge that
is already present is a no-op. -/
def addControlInput (g : Graph) (target src : Nat) : Graph :=
  { g with
    ops := listModify g.ops target (fun op =>
      if src ∈ op.controlInputs then op
      else { op with controlInputs := op.controlInputs ++ [src] }) }

/-- Modelled from the spec: `Operation._add_control_inputs` adds each edge of
a list in turn. -/
def addControlInputs (g : Graph) (target : Nat) (srcs : List Nat) : Graph :=
  srcs.foldl (fun gAcc s => addControlInput gAcc target s) g

/-- The control-input edge list of operation `i` in `g`. -/
def ctrl (g : Graph) (i : Nat) : List Nat := (getOp g i).controlInputs

/-- `ASYNC_STATEFUL_OPS` from the source. -/
def ASYNC_STATEFUL_OPS : List String :=
  ["CollectiveGather", "CollectiveReduce", "CollectiveBcastSend",
   "CollectiveBcastRecv", "NcclAllReduce"]

/-- `LEGACY_RANDOM_OPS` from the source. -/
def LEGACY_RANDOM_OPS : List String :=
  ["RandomUniform", "RandomUniformInt", "RandomStandardNormal",
   "ParameterizedTruncatedNormal", "TruncatedNormal", "RandomShuffle",
   "Multinomial", "RandomGamma", "RandomGammaGrad", "RandomPoisson",
   "RandomPoissonV2"]

/-- `_ORDER_INSENSITIVE_STATEFUL_OPS` from the source. -/
def ORDER_INSENSITIVE_STATEFUL_OPS : List String :=
  ["CudnnRNNV2", "CudnnRNNV3", "CudnnRNNBackpropV2", "CudnnRNNBackpropV3"]

/-- `_ALL_BLACKLISTED_OPS`: the union of the three exemption tables.
Membership in this list is what the source tests. -/
def allBlacklistedOps : List String :=
  ASYNC_STATEFUL_OPS ++ LEGACY_RANDOM_OPS ++ ORDER_INSENSITIVE_STATEFUL_OPS

/-- `op_is_stateful(op)`: the stateful flag is set and the op kind is not in
one of the exemption tables. -/
def opIsStateful (op : Operation) : Bool :=
  op.isStateful && !(allBlacklistedOps.contains op.opType)

/-- Modelled from the spec: `control_flow_util.IsInWhileLoop` (outside the
source file) — an operation is lexically inside an unsupported iterative
construct iff some context on its enclosing-context chain is a while
context.  The chain is walked with fuel to keep the definition total. -/
def hasWhileCtx (g : Graph) : Nat → Option Nat → Bool
  | _, none => false
  | 0, some _ => false
  | fuel + 1, some c => (getCtx g c).isWhile || hasWhileCtx g fuel (getCtx g c).outer

def isInWhileLoop (g : Graph) (c : Option Nat) : Bool :=
  hasWhileCtx g g.contexts.length c

/-- The outer context of a context handle (`ctx.outer_context`). -/
def outerOf (g : Graph) : Option Nat → Option Nat
  | none => none
  | some c => (getCtx g c).outer

/-- Append one operation and its fresh output tensor records to a graph. -/
def appendMergeG (g : Graph) (mo : Operation) (ts : List TensorInfo) : Graph :=
  { g with ops := g.ops ++ [mo], tensors := g.tensors ++ ts }

/-- The engine's working state during one pass of `__exit__`: the evolving
graph, `last_op_using_resource_tensor` (keyed by `some tensorId`, with the
`None` sentinel key of the source as the `none` key), `ops_which_must_run`,
and `merge_for_resource`. -/
structure EngineState where
  g : Graph
  lastUser : List (Option Nat × Nat)
  mustRun : List Nat
  mergeFor : List (Nat × Nat)
deriving DecidableEq, Repr

/-- The synthesized merge operation for a switch `op` in graph `g`
(`control_flow_ops.merge(switch_op.outputs, name="artificial_merge")`
followed by the context overwrite of the source): a fresh `Merge` op whose
data inputs are the switch's outputs, with two fresh output tensors, placed
in the outer context of the switch's context. -/
def psMergeOp (g : Graph) (op : Operation) : Operation :=
  { opType := "Merge", inputs := op.outputs,
    outputs := [g.tensors.length, g.tensors.length + 1],
    ctx := outerOf g op.ctx, isStateful := false, controlInputs := [] }

/-- Modelled from the spec: the fresh output tensor records of a synthesized
merge — the value output carries the dtype of the merged resource, the
chosen-index output is not a resource. -/
def psNewTensors (g : Graph) (inpT : Nat) : List TensorInfo :=
  [{ producer := g.ops.length, dtype := (getTensor g inpT).dtype },
   { producer := g.ops.length, dtype := DType.other }]

/-- The creation branch of `_process_switch` (source lines 226–241), entered
when no merge is yet registered for the switch's first output: create the
merge, force it into `must_run`, give the switch a control edge on the
previous user of its resource input, repoint `last_user` of that input to the
merge, chain a pre-existing merge for the input after the new merge, and
register the new merge for every output of the switch. -/
def psCreate (s inpT : Nat) (op : Operation) (st1 : EngineState) : EngineState :=
  let mId := st1.g.ops.length
  let st2 := { st1 with
    g := appendMergeG st1.g (psMergeOp st1.g op) (psNewTensors st1.g inpT),
    mustRun := insertIfAbsent st1.mustRun mId }
  let st3 :=
    match alookup st2.lastUser (some inpT) with
    | some lastOp => { st2 with g := addControlInput st2.g s lastOp }
    | none => st2
  let st4 := { st3 with lastUser := (some inpT, mId) :: st3.lastUser }
  let st5 :=
    match alookup st4.mergeFor inpT with
    | some m => { st4 with g := addControlInput st4.g m mId }
    | none => st4
  { st5 with mergeFor := op.outputs.foldl (fun mf o => (o, mId) :: mf) st5.mergeFor }

/-- `AutomaticControlDependencies._process_switch`, fuelled for totality (the
source recurses along the chain of switch ops feeding the switch's resource
input; in a well-formed graph the chain strictly descends, so any fuel at
least the switch handle suffices).  If the switch's resource input is itself
produced by a switch, that one is processed first; then, unless a merge is
already registered for the switch's first output (the memoization that makes
re-invocation a no-op), the creation branch `psCreate` runs. -/
def processSwitch : Nat → Nat → EngineState → EngineState
  | 0, _, st => st
  | fuel + 1, s, st =>
    let op := getOp st.g s
    match op.inputs.head? with
    | none => st
    | some inpT =>
      let prod := (getTensor st.g inpT).producer
      let st1 :=
        if (getTensor st.g inpT).dtype = DType.resource ∧
            (getOp st.g prod).opType = "Switch" then
          processSwitch fuel prod st
        else st
      match op.outputs.head? with
      | none => st1
      | some outT =>
        if (alookup st1.mergeFor outT).isSome then st1
        else psCreate s inpT op st1

/-- The inner repointing loop of the Merge branch of `__exit__`: for each
input of an absorbed op whose id is tracked in `last_user`, repoint the entry
to the merge. -/
def repointInputs (mergeId : Nat) (last : List (Option Nat × Nat)) (inps : List Nat) :
    List (Option Nat × Nat) :=
  inps.foldl
    (fun l t => if (alookup l (some t)).isSome then (some t, mergeId) :: l else l)
    last

/-- One iteration of `for o in ops_which_must_run` in the Merge branch of
`__exit__`: the merge `i` acquires a control edge on `o`, and `last_user` is
repointed to `i` for every tracked input of `o`. -/
def absorbOne (i : Nat) (st : EngineState) (o : Nat) : EngineState :=
  let st1 := { st with g := addControlInput st.g i o }
  { st1 with lastUser := repointInputs i st1.lastUser (getOp st1.g o).inputs }

/-- One iteration of the resource-input loop of `__exit__` for op `i` with
captured control-flow context `iCtx`: skip non-resource inputs, deduplicate
repeated resource handles, resolve a producing switch, collect the
same-context last user as a candidate control input, give the pending merge
for the resource a control edge on `i`, and repoint `last_user` to `i`.
The accumulator carries the engine state, the candidate `control_inputs`
and the deduplication set `resource_inputs`. -/
def procOneInput (i : Nat) (iCtx : Option Nat)
    (acc : EngineState × List Nat × List Nat) (t : Nat) :
    EngineState × List Nat × List Nat :=
  let st := acc.1
  let ctrlIns := acc.2.1
  let resIds := acc.2.2
  if (getTensor st.g t).dtype ≠ DType.resource then acc
  else if t ∈ resIds then acc
  else
    let resIds2 := t :: resIds
    let prod := (getTensor st.g t).producer
    let stA :=
      if (getOp st.g prod).opType = "Switch" then
        processSwitch st.g.ops.length prod st
      else st
    let ctrlIns2 :=
      match alookup stA.lastUser (some t) with
      | some lastOp =>
        if (getOp stA.g lastOp).ctx = iCtx then
          if lastOp ∈ ctrlIns then ctrlIns else ctrlIns ++ [lastOp]
        else ctrlIns
      | none => ctrlIns
    let stB :=
      match alookup stA.mergeFor t with
      | some m => { stA with g := addControlInput stA.g m i }
      | none => stA
    let stC := { stB with lastUser := (some t, i) :: stB.lastUser }
    (stC, ctrlIns2, resIds2)

/-- Whether `op.inputs[0].dtype == dtypes.resource` (guarded by the Switch
kind test in the source, so the empty-input case is never reached there). -/
def firstInputResource (g : Graph) (op : Operation) : Bool :=
  match op.inputs.head? with
  | some t => decide ((getTensor g t).dtype = DType.resource)
  | none => false

/-- One iteration of the main loop of `__exit__`, processing the operation
with handle `i`:

1. skip ops inside a while loop;
2. force unregistered or stateful (non-exempt) ops into `must_run`;
3. skip resource-consuming Switch ops;
4. Merge absorption: the merge acquires a control edge on every op in
   `must_run`, `last_user` is repointed for tracked inputs of absorbed ops,
   and `must_run` is reset to the singleton of the merge;
5. otherwise process resource inputs, chain context-less stateful ops with
   no resource inputs through the `None` sentinel key, and finally attach
   the candidate control inputs that share `i`'s context. -/
def stepOp (st : EngineState) (i : Nat) : EngineState :=
  let op := getOp st.g i
  if isInWhileLoop st.g op.ctx then st
  else
    let st1 :=
      if !(st.g.registeredOps.contains op.opType) || opIsStateful op then
        { st with mustRun := insertIfAbsent st.mustRun i }
      else st
    if op.opType = "Switch" ∧ firstInputResource st.g op then st1
    else if op.opType = "Merge" then
      let st2 := st1.mustRun.foldl (absorbOne i) st1
      { st2 with mustRun := [i] }
    else
      let r := op.inputs.foldl (procOneInput i op.ctx) (st1, [], [])
      let st3 := r.1
      let ctrlIns := r.2.1
      let resIds := r.2.2
      let st4 :=
        if opIsStateful op ∧ resIds = [] ∧ op.ctx = none then
          let st' :=
            match alookup st3.lastUser none with
            | some p => { st3 with g := addControlInput st3.g i p }
            | none => st3
          { st' with lastUser := (none, i) :: st'.lastUser }
        else st3
      let keep := ctrlIns.filter (fun c => decide ((getOp st4.g c).ctx = op.ctx))
      { st4 with g := addControlInputs st4.g i keep }

/-- Fresh engine working state at pass start. -/
def initState (g : Graph) : EngineState :=
  { g := g, lastUser := [], mustRun := [], mergeFor := [] }

/-- Process `k` operations starting at handle `p`, in construction order.
The list of handles is captured before the loop starts (as the source slices
`get_operations()` once), so operations appended during the pass are not
themselves iterated. -/
def runFrom : EngineState → Nat → Nat → EngineState
  | st, _, 0 => st
  | st, p, k + 1 => runFrom (stepOp st p) (p + 1) k

/-- The dependency-insertion engine: one pass of the `__exit__` loop over the
slice of operations `[n, g.ops.length)`. -/
def runEngine (g : Graph) (n : Nat) : EngineState :=
  runFrom (initState g) n (g.ops.length - n)

/-- The scope manager's persistent state (`AutomaticControlDependencies`
object): `_returned_tensors`, `ops_which_must_run`, the identity of the
graph captured at `__enter__`, and the operation count captured at
`__enter__`. -/
structure ACDState where
  returnedTensors : List Nat
  opsWhichMustRun : List Nat
  graphId : Option Nat
  nOperations : Nat
deriving DecidableEq, Repr

/-- `AutomaticControlDependencies.__init__`. -/
def acdInit : ACDState :=
  { returnedTensors := [], opsWhichMustRun := [], graphId := none, nOperations := 0 }

/-- `__enter__`: in eager mode, do nothing; otherwise record the default
graph's identity and current operation count and set the graph's
`_add_control_dependencies` flag. -/
def acdEnter (eager : Bool) (acd : ACDState) (g : Graph) : ACDState × Graph :=
  if eager then (acd, g)
  else
    ({ acd with graphId := some g.gid, nOperations := g.ops.length },
     { g with addControlDependencies := true })

/-- Modelled from the spec: `array_ops.identity` (outside the source file) is
the external primitive that creates a trivial identity operation copying one
tensor; it is appended to the graph in the ambient control-flow context `c`
and its fresh output has the dtype of its input. -/
def mkIdentity (g : Graph) (c : Option Nat) (t : Nat) : Graph × Nat :=
  let newT := g.tensors.length
  let idOp : Operation :=
    { opType := "Identity", inputs := [t], outputs := [newT], ctx := c,
      isStateful := false, controlInputs := [] }
  ({ g with
     ops := g.ops ++ [idOp],
     tensors := g.tensors ++ [{ producer := g.ops.length, dtype := (getTensor g t).dtype }] },
   newT)

/-- A value passed to `mark_as_return`: a plain tensor, an `IndexedSlices`
(variable-length-slice value), a `SparseTensor`, or a `TensorArray` handle
carrying a flow (sequencing) token.  All leaves are tensor handles. -/
inductive RValue where
  | plain (t : Nat)
  | indexedSlices (values : Nat) (indices : Nat) (denseShape : Option Nat)
  | sparse (indices : Nat) (values : Nat) (denseShape : Nat)
  | tensorArray (handle : Nat) (flow : Nat)
deriving DecidableEq, Repr

/-- Adding a tensor to the identity-keyed set `_returned_tensors`. -/
def addReturned (l : List Nat) (t : Nat) : List Nat :=
  if t ∈ l then l else l ++ [t]

/-- `mark_as_return`, with the ambient control-flow context `c` in which the
identity operations are created.  Mirrors the source's order of operations:
for `IndexedSlices` and `SparseTensor` the values identity is created first,
then the indices identity, and the set additions are indices first, then
values; the dense shape (resp. the array handle) is passed through
unchanged. -/
def markAsReturn (acd : ACDState) (g : Graph) (c : Option Nat) (v : RValue) :
    ACDState × Graph × RValue :=
  match v with
  | .indexedSlices vals inds shape =>
    let p1 := mkIdentity g c vals
    let p2 := mkIdentity p1.1 c inds
    ({ acd with returnedTensors := addReturned (addReturned acd.returnedTensors p2.2) p1.2 },
     p2.1, .indexedSlices p1.2 p2.2 shape)
  | .sparse inds vals shape =>
    let p1 := mkIdentity g c vals
    let p2 := mkIdentity p1.1 c inds
    ({ acd with returnedTensors := addReturned (addReturned acd.returnedTensors p2.2) p1.2 },
     p2.1, .sparse p2.2 p1.2 shape)
  | .tensorArray h flow =>
    let p1 := mkIdentity g c flow
    ({ acd with returnedTensors := addReturned acd.returnedTensors p1.2 },
     p1.1, .tensorArray h p1.2)
  | .plain t =>
    let p1 := mkIdentity g c t
    ({ acd with returnedTensors := addReturned acd.returnedTensors p1.2 },
     p1.1, .plain p1.2)

/-- The final loop of `__exit__`: every returned tensor's producing op
acquires a control edge on every op of the persistent must-run set that
shares its control-flow context (the adds are guarded by the truthiness test
on `ops_which_must_run`). -/
def anchorReturns (g : Graph) (mustRunAll : List Nat) (returned : List Nat) : Graph :=
  returned.foldl
    (fun gAcc r =>
      if mustRunAll.isEmpty then gAcc
      else
        let p := (getTensor gAcc r).producer
        addControlInputs gAcc p
          (mustRunAll.filter (fun o => decide ((getOp gAcc o).ctx = (getOp gAcc p).ctx))))
    g

/-- Lines 252–256 of the source: restore `_add_control_dependencies` to the
outer graph's value, or to `False` when there is no outer graph. -/
def restoreFlag (g : Graph) : Graph :=
  match g.outerAddControlDependencies with
  | some v => { g with addControlDependencies := v }
  | none => { g with addControlDependencies := false }

/-- `self.ops_which_must_run.update(ops_which_must_run)`. -/
def unionMustRun (persistent newOnes : List Nat) : List Nat :=
  newOnes.foldl insertIfAbsent persistent

/-- `__exit__`: in eager mode, do nothing; fail with the consistency error if
the default graph's identity changed since `__enter__` (before any mutation);
otherwise restore the insertion flag, run the engine over the new slice, fold
the resulting must-run set into the persistent one, and anchor the returned
tensors. -/
def acdExit (eager : Bool) (acd : ACDState) (g : Graph) :
    Except String (Graph × ACDState) :=
  if eager then .ok (g, acd)
  else if acd.graphId = some g.gid then
    let g1 := restoreFlag g
    let st := runEngine g1 acd.nOperations
    let allMustRun := unionMustRun acd.opsWhichMustRun st.mustRun
    let g2 := anchorReturns st.g allMustRun acd.returnedTensors
    .ok (g2, { acd with opsWhichMustRun := allMustRun })
  else
    .error "Graph changed while trying to add control dependencies."

/-- The skeleton of an operation: every field except the mutable control-edge
set.  The engine never mutates the skeleton of an existing operation (it only
adds control edges and appends fresh operations). -/
def opCore (o : Operation) : Operation := { o with controlInputs := [] }


/-- State extension: how one engine state can evolve into another during a
pass.  Operations and tensors are only appended, skeletons and tensor records
of existing handles are stable, the context and registered-kind tables are
fixed, control edges only grow, tracked merges stay tracked, and every tensor
appended during the pass is produced by a synthesized in-range Merge. -/
structure GExt (st st' : EngineState) : Prop where
  opsLen : st.g.ops.length ≤ st'.g.ops.length
  tenLen : st.g.tensors.length ≤ st'.g.tensors.length
  core : ∀ i, i < st.g.ops.length → opCore (getOp st'.g i) = opCore (getOp st.g i)
  tens : ∀ t, t < st.g.tensors.length → getTensor st'.g t = getTensor st.g t
  ctxs : st'.g.contexts = st.g.contexts
  regs : st'.g.registeredOps = st.g.registeredOps
  ctrlMono : ∀ x b, b ∈ ctrl st.g x → b ∈ ctrl st'.g x
  mergeSome : ∀ k, (alookup st.mergeFor k).isSome → (alookup st'.mergeFor k).isSome
  newTensorProd : ∀ t, st.g.tensors.length ≤ t → t < st'.g.tensors.length →
    (getTensor st'.g t).producer < st'.g.ops.length ∧
    (getOp st'.g (getTensor st'.g t).producer).opType = "Merge"
  newOps : ∀ j, st.g.ops.length ≤ j → (getOp st'.g j).opType ≠ "Switch"

/-- Every operation's inputs reference existing tensors. -/
def inputsBounded (g : Graph) : Prop :=
  ∀ i, i < g.ops.length → ∀ t ∈ (getOp g i).inputs, t < g.tensors.length

/-- The switch `s` (and its chain of feeding switches, up to the given fuel)
is already resolved in state `st`: its first output is tracked in
`merge_for_resource`, and, when its resource input is itself produced by a
switch, that switch is resolved too. -/
def psResolved : Nat → Nat → EngineState → Prop
  | 0, _, _ => True
  | fuel + 1, s, st =>
    match (getOp st.g s).inputs.head? with
    | none => True
    | some inpT =>
      ((getTensor st.g inpT).dtype = DType.resource ∧
          (getOp st.g (getTensor st.g inpT).producer).opType = "Switch" →
        psResolved fuel (getTensor st.g inpT).producer st) ∧
      (∀ outT, (getOp st.g s).outputs.head? = some outT →
        (alookup st.mergeFor outT).isSome)

/-- `must_run` as it stands when the Merge branch of the loop is entered for
op `i` (that is, after the classification step of the same iteration). -/
def mustRunPre (st : EngineState) (i : Nat) : List Nat :=
  if !(st.g.registeredOps.contains (getOp st.g i).opType) || opIsStateful (getOp st.g i) then
    insertIfAbsent st.mustRun i
  else st.mustRun

/-- The same graph with the stateful flag of operation `i` cleared. -/
def clearStatefulAt (g : Graph) (i : Nat) : Graph :=
  { g with ops := listModify g.ops i (fun op => { op with isStateful := false }) }

/-- Shorthand for building demonstration operations. -/
def mkOp (ty : String) (ins outs : List Nat) (c : Option Nat) (sf : Bool) : Operation :=
  { opType := ty, inputs := ins, outputs := outs, ctx := c, isStateful := sf,
    controlInputs := [] }

/-- Demonstration graph: a resource handle is created, mutated and read, with
no branching; used to exhibit the amended same-context ordering property. -/
def seqDemoG : Graph :=
  { gid := 0,
    ops := [mkOp "VarHandleOp" [] [0] none true,
            mkOp "AssignVariableOp" [0] [] none true,
            mkOp "ReadVariableOp" [0] [1] none false],
    tensors := [⟨0, DType.resource⟩, ⟨2, DType.other⟩],
    contexts := [],
    registeredOps := ["VarHandleOp", "AssignVariableOp", "ReadVariableOp"],
    addControlDependencies := false, outerAddControlDependencies := none }

/-- Demonstration conditional: both branches of a cond write the same
resource; the resource flows through the Switch (op 2) and each branch-local
writer (ops 3 and 4) consumes one of its outputs. -/
def condDemoG : Graph :=
  { gid := 0,
    ops := [mkOp "VarHandleOp" [] [0] none true,
            mkOp "Less" [] [1] none false,
            mkOp "Switch" [0, 1] [2, 3] (some 0) false,
            mkOp "AssignAddVariableOp" [2] [] (some 1) true,
            mkOp "AssignSubVariableOp" [3] [] (some 2) true],
    tensors := [⟨0, DType.resource⟩, ⟨1, DType.other⟩, ⟨2, DType.resource⟩,
                ⟨2, DType.resource⟩],
    contexts := [⟨none, false⟩, ⟨some 0, false⟩, ⟨some 0, false⟩],
    registeredOps := ["VarHandleOp", "AssignAddVariableOp", "AssignSubVariableOp",
                      "Less", "Switch", "Merge"],
    addControlDependencies := false, outerAddControlDependencies := none }

/-- Counterexample graph for the merge-absorption repointing claim: op 1
(stateful, in `must_run`) used resource tensor 0, but op 2 used it later, so
the resource is *not* last-used by an absorbed op when the Merge (op 3) is
encountered — yet the code repoints `last_user[0]` to the merge because the
resource occurs among op 1's inputs. -/
def c3G : Graph :=
  { gid := 0,
    ops := [mkOp "VarHandleOp" [] [0] none false,
            mkOp "AssignVariableOp" [0] [] none true,
            mkOp "ReadVariableOp" [0] [1] none false,
            mkOp "Merge" [1] [2, 3] none false],
    tensors := [⟨0, DType.resource⟩, ⟨2, DType.other⟩, ⟨3, DType.other⟩,
                ⟨3, DType.other⟩],
    contexts := [],
    registeredOps := ["VarHandleOp", "AssignVariableOp", "ReadVariableOp", "Merge"],
    addControlDependencies := false, outerAddControlDependencies := none }

/-- Counterexample graph for the no-resource/no-edges claim: no tensor in the
graph is resource-typed, yet the engine chains the two context-less stateful
ops through the sentinel key and the Merge absorbs both, adding three control
edges that are not return-anchoring edges. -/
def c4G : Graph :=
  { gid := 0,
    ops := [mkOp "PrintV2" [] [] none true,
            mkOp "PrintV2" [] [] none true,
            mkOp "Merge" [0] [1, 2] none false],
    tensors := [⟨0, DType.other⟩, ⟨2, DType.other⟩, ⟨2, DType.other⟩],
    contexts := [],
    registeredOps := ["PrintV2", "Merge"],
    addControlDependencies := false, outerAddControlDependencies := none }

/-- Witness graph for the amended no-resource/no-edges claim: no resource
dtypes, no Merge, no context-less stateful op. -/
def c4WitnessG : Graph :=
  { gid := 3,
    ops := [mkOp "Const" [] [0] none false,
            mkOp "Add" [0] [1] none false,
            mkOp "Identity" [1] [2] none false],
    tensors := [⟨0, DType.other⟩, ⟨1, DType.other⟩, ⟨2, DType.other⟩],
    contexts := [],
    registeredOps := ["Const", "Add", "Identity"],
    addControlDependencies := false, outerAddControlDependencies := none }

/-- Witness graph for the exemption claim: a registered legacy random op that
is stateful and also consumes a resource tensor. -/
def c7G : Graph :=
  { gid := 0,
    ops := [mkOp "VarHandleOp" [] [0] none true,
            mkOp "AssignVariableOp" [0] [] none true,
            mkOp "RandomUniform" [0] [1] none true],
    tensors := [⟨0, DType.resource⟩, ⟨2, DType.other⟩],
    contexts := [],
    registeredOps := ["VarHandleOp", "AssignVariableOp", "RandomUniform"],
    addControlDependencies := false, outerAddControlDependencies := none }

/-- Witness graph for the return-anchoring claim: a constant to be returned
and a context-less stateful op that must run. -/
def c9G : Graph :=
  { gid := 7,
    ops := [mkOp "Const" [] [0] none false,
            mkOp "PrintV2" [] [] none true],
    tensors := [⟨0, DType.other⟩],
    contexts := [],
    registeredOps := ["Const", "PrintV2", "Identity"],
    addControlDependencies := false, outerAddControlDependencies := none }

/-- Total extractor for the graph produced by a successful `__exit__`,
defaulting to `d` on the error case (used to state concrete facts about exit
results decidably). -/
def exitGraphD (e : Except String (Graph × ACDState)) (d : Graph) : Graph :=
  match e with
  | .ok p => p.1
  | .error _ => d

/-- Tiny graph providing three leaf tensors for the composite-value claims:
one op producing the indices, values and dense-shape tensors of a sparse
value. -/
def c8G : Graph :=
  { gid := 0,
    ops := [mkOp "Const" [] [0, 1, 2] none false],
    tensors := [⟨0, DType.other⟩, ⟨0, DType.other⟩, ⟨0, DType.other⟩],
    contexts := [],
    registeredOps := ["Const", "Identity"],
    addControlDependencies := false, outerAddControlDependencies := none }

/-- The processing that the `__exit__` loop applies to a registered,
non-stateful, non-Switch, non-Merge operation that is not inside a while
loop: pure resource-usage-chain tracking — the resource-input loop followed
by the same-context attach — with no must-run promotion and no sentinel
chaining.  (Extracted from the corresponding path of `stepOp`; used to state
that exempt stateful kinds are processed exactly like such plain
consumers.) -/
def plainConsumerStep (st : EngineState) (i : Nat) : EngineState :=
  let op := getOp st.g i
  if isInWhileLoop st.g op.ctx then st
  else
    let r := op.inputs.foldl (procOneInput i op.ctx) (st, [], [])
    let keep := r.2.1.filter (fun c => decide ((getOp r.1.g c).ctx = op.ctx))
    { r.1 with g := addControlInputs r.1.g i keep }

/-- Two graphs agree on everything except, possibly, control-input edge
lists: same number of operations, identical operation cores, and identical
tensor, context and registration tables.  This is the relation between the
graph produced by a pass of the engine that appended nothing and the graph
it started from. -/
def coreSame (g1 g2 : Graph) : Prop :=
  g1.ops.length = g2.ops.length ∧
  (∀ j, opCore (getOp g1 j) = opCore (getOp g2 j)) ∧
  g1.tensors = g2.tensors ∧
  g1.contexts = g2.contexts ∧
  g1.registeredOps = g2.registeredOps

theorem listModify_length {α : Type} (l : List α) (i : Nat) (f : α → α) :
    (listModify l i f).length = l.length := by
  induction l generalizing i with
  | nil => rfl
  | cons x xs ih =>
    cases i with
    | zero => rfl
    | succ n => simpa [listModify] using ih n

theorem getD_listModify {α : Type} (l : List α) (i j : Nat) (f : α → α) (d : α) :
    (listModify l i f).getD j d =
      if j = i ∧ j < l.length then f (l.getD j d) else l.getD j d := by
  induction l generalizing i j with
  | nil => simp [listModify]
  | cons x xs ih =>
    cases i with
    | zero =>
      cases j with
      | zero => simp [listModify]
      | succ m => simp [listModify, List.getD_cons_succ]
    | succ n =>
      cases j with
      | zero => simp [listModify]
      | succ m =>
        simp only [listModify, List.getD_cons_succ, ih, List.length_cons]
        by_cases h1 : m = n
        · subst h1
          by_cases h2 : m < xs.length
          · simp [h2, Nat.succ_lt_succ h2]
          · simp [h2, fun hw => h2 (Nat.lt_of_succ_lt_succ hw)]
        · simp [h1, fun hw : m + 1 = n + 1 => h1 (Nat.succ_injective hw)]

theorem getD_append_general {α : Type} (l l' : List α) (j : Nat) (d : α) :
    (l ++ l').getD j d =
      if j < l.length then l.getD j d else l'.getD (j - l.length) d := by
  induction l generalizing j with
  | nil => simp
  | cons x xs ih =>
    cases j with
    | zero => simp
    | succ m =>
      simp only [List.cons_append, List.getD_cons_succ, ih, List.length_cons]
      by_cases h : m < xs.length
      · simp [h, Nat.succ_lt_succ h]
      · simp [h, fun hw => h (Nat.lt_of_succ_lt_succ hw), Nat.succ_sub_succ]

theorem getOp_addControlInput (g : Graph) (a b x : Nat) :
    getOp (addControlInput g a b) x =
      if x = a ∧ x < g.ops.length then
        if b ∈ (getOp g x).controlInputs then getOp g x
        else { getOp g x with controlInputs := (getOp g x).controlInputs ++ [b] }
      else getOp g x := by
  simp only [getOp, addControlInput, getD_listModify]

theorem ctrl_addControlInput_ne (g : Graph) (a b x : Nat) (h : x ≠ a) :
    ctrl (addControlInput g a b) x = ctrl g x := by
  simp [ctrl, getOp_addControlInput, h]

theorem mem_ctrl_addControlInput_iff (g : Graph) (a b x c : Nat) :
    c ∈ ctrl (addControlInput g a b) x ↔
      c ∈ ctrl g x ∨ (x = a ∧ c = b ∧ a < g.ops.length) := by
  unfold ctrl
  rw [getOp_addControlInput]
  by_cases h1 : x = a ∧ x < g.ops.length
  · rw [if_pos h1]
    obtain ⟨hxa, hlt⟩ := h1
    by_cases h2 : b ∈ (getOp g x).controlInputs
    · rw [if_pos h2]
      constructor
      · exact fun h => Or.inl h
      · rintro (h | ⟨_, rfl, _⟩)
        · exact h
        · exact h2
    · rw [if_neg h2]
      show c ∈ (getOp g x).controlInputs ++ [b] ↔ _
      simp only [List.mem_append, List.mem_singleton]
      constructor
      · rintro (h | rfl)
        · exact Or.inl h
        · exact Or.inr ⟨hxa, rfl, by rw [← hxa]; exact hlt⟩
      · rintro (h | ⟨_, rfl, _⟩)
        · exact Or.inl h
        · exact Or.inr rfl
  · rw [if_neg h1]
    constructor
    · exact fun h => Or.inl h
    · rintro (h | ⟨hxa, rfl, hlt⟩)
      · exact h
      · exact absurd ⟨hxa, by rw [hxa]; exact hlt⟩ h1

theorem opCore_addControlInput (g : Graph) (a b x : Nat) :
    opCore (getOp (addControlInput g a b) x) = opCore (getOp g x) := by
  simp only [getOp_addControlInput]
  by_cases h : x = a ∧ x < g.ops.length
  · simp only [if_pos h]
    by_cases h2 : b ∈ (getOp g x).controlInputs <;> simp [h2, opCore]
  · simp [h]

theorem addControlInput_ops_length (g : Graph) (a b : Nat) :
    (addControlInput g a b).ops.length = g.ops.length := by
  simp [addControlInput, listModify_length]

theorem addControlInput_tensors (g : Graph) (a b : Nat) :
    (addControlInput g a b).tensors = g.tensors := rfl

theorem addControlInput_contexts (g : Graph) (a b : Nat) :
    (addControlInput g a b).contexts = g.contexts := rfl

theorem addControlInput_registeredOps (g : Graph) (a b : Nat) :
    (addControlInput g a b).registeredOps = g.registeredOps := rfl

theorem mem_ctrl_addControlInputs_iff (g : Graph) (a : Nat) (l : List Nat) (x c : Nat) :
    c ∈ ctrl (addControlInputs g a l) x ↔
      c ∈ ctrl g x ∨ (x = a ∧ c ∈ l ∧ a < g.ops.length) := by
  induction l generalizing g with
  | nil => simp [addControlInputs]
  | cons y ys ih =>
    show c ∈ ctrl (addControlInputs (addControlInput g a y) a ys) x ↔ _
    rw [ih, mem_ctrl_addControlInput_iff, addControlInput_ops_length]
    constructor
    · rintro ((h | ⟨rfl, rfl, hlt⟩) | ⟨rfl, hm, hlt⟩)
      · exact Or.inl h
      · exact Or.inr ⟨rfl, List.mem_cons_self _ _, hlt⟩
      · exact Or.inr ⟨rfl, List.mem_cons_of_mem _ hm, hlt⟩
    · rintro (h | ⟨rfl, hm, hlt⟩)
      · exact Or.inl (Or.inl h)
      · rcases List.mem_cons.mp hm with rfl | hm
        · exact Or.inl (Or.inr ⟨rfl, rfl, hlt⟩)
        · exact Or.inr ⟨rfl, hm, hlt⟩

theorem ctrl_addControlInputs_ne (g : Graph) (a : Nat) (l : List Nat) (x : Nat)
    (h : x ≠ a) : ctrl (addControlInputs g a l) x = ctrl g x := by
  induction l generalizing g with
  | nil => rfl
  | cons y ys ih =>
    show ctrl (addControlInputs (addControlInput g a y) a ys) x = _
    rw [ih, ctrl_addControlInput_ne _ _ _ _ h]

theorem opCore_addControlInputs (g : Graph) (a : Nat) (l : List Nat) (x : Nat) :
    opCore (getOp (addControlInputs g a l) x) = opCore (getOp g x) := by
  induction l generalizing g with
  | nil => rfl
  | cons y ys ih =>
    show opCore (getOp (addControlInputs (addControlInput g a y) a ys) x) = _
    rw [ih, opCore_addControlInput]

theorem addControlInputs_ops_length (g : Graph) (a : Nat) (l : List Nat) :
    (addControlInputs g a l).ops.length = g.ops.length := by
  induction l generalizing g with
  | nil => rfl
  | cons y ys ih =>
    show (addControlInputs (addControlInput g a y) a ys).ops.length = _
    rw [ih, addControlInput_ops_length]

theorem addControlInputs_tensors (g : Graph) (a : Nat) (l : List Nat) :
    (addControlInputs g a l).tensors = g.tensors := by
  induction l generalizing g with
  | nil => rfl
  | cons y ys ih =>
    show (addControlInputs (addControlInput g a y) a ys).tensors = _
    rw [ih]
    rfl

theorem addControlInputs_contexts (g : Graph) (a : Nat) (l : List Nat) :
    (addControlInputs g a l).contexts = g.contexts := by
  induction l generalizing g with
  | nil => rfl
  | cons y ys ih =>
    show (addControlInputs (addControlInput g a y) a ys).contexts = _
    rw [ih]
    rfl

theorem addControlInputs_registeredOps (g : Graph) (a : Nat) (l : List Nat) :
    (addControlInputs g a l).registeredOps = g.registeredOps := by
  induction l generalizing g with
  | nil => rfl
  | cons y ys ih =>
    show (addControlInputs (addControlInput g a y) a ys).registeredOps = _
    rw [ih]
    rfl

theorem getD_append_lt {α : Type} (l l' : List α) (j : Nat) (d : α) (h : j < l.length) :
    (l ++ l').getD j d = l.getD j d := by
  rw [getD_append_general, if_pos h]

theorem getD_append_ge {α : Type} (l l' : List α) (j : Nat) (d : α) (h : ¬ j < l.length) :
    (l ++ l').getD j d = l'.getD (j - l.length) d := by
  rw [getD_append_general, if_neg h]

theorem getD_mem_of_lt {α : Type} (l : List α) (j : Nat) (d : α) (h : j < l.length) :
    l.getD j d ∈ l := by
  induction l generalizing j with
  | nil => simp at h
  | cons x xs ih =>
    cases j with
    | zero => exact List.mem_cons_self _ _
    | succ m =>
      exact List.mem_cons_of_mem _ (ih m (Nat.lt_of_succ_lt_succ h))

theorem opType_of_coreEq {a b : Operation} (h : opCore a = opCore b) :
    a.opType = b.opType := by
  have h2 : (opCore a).opType = (opCore b).opType := congrArg Operation.opType h
  exact h2

theorem inputs_of_coreEq {a b : Operation} (h : opCore a = opCore b) :
    a.inputs = b.inputs := by
  have h2 : (opCore a).inputs = (opCore b).inputs := congrArg Operation.inputs h
  exact h2

theorem outputs_of_coreEq {a b : Operation} (h : opCore a = opCore b) :
    a.outputs = b.outputs := by
  have h2 : (opCore a).outputs = (opCore b).outputs := congrArg Operation.outputs h
  exact h2

theorem ctx_of_coreEq {a b : Operation} (h : opCore a = opCore b) :
    a.ctx = b.ctx := by
  have h2 : (opCore a).ctx = (opCore b).ctx := congrArg Operation.ctx h
  exact h2

theorem isStateful_of_coreEq {a b : Operation} (h : opCore a = opCore b) :
    a.isStateful = b.isStateful := by
  have h2 : (opCore a).isStateful = (opCore b).isStateful := congrArg Operation.isStateful h
  exact h2

theorem getOp_oor (g : Graph) (j : Nat) (h : g.ops.length ≤ j) :
    getOp g j = defaultOp := by
  unfold getOp
  rw [List.getD_eq_getElem?_getD, List.getElem?_eq_none h]
  rfl

theorem gext_refl (st : EngineState) : GExt st st where
  opsLen := Nat.le_refl _
  tenLen := Nat.le_refl _
  core := fun _ _ => rfl
  tens := fun _ _ => rfl
  ctxs := rfl
  regs := rfl
  ctrlMono := fun _ _ h => h
  mergeSome := fun _ h => h
  newTensorProd := fun t h1 h2 => absurd h2 (Nat.not_lt.mpr h1)
  newOps := fun j hj => by rw [getOp_oor st.g j hj]; decide

theorem gext_trans {st st' st'' : EngineState} (h1 : GExt st st') (h2 : GExt st' st'') :
    GExt st st'' where
  opsLen := Nat.le_trans h1.opsLen h2.opsLen
  tenLen := Nat.le_trans h1.tenLen h2.tenLen
  core := fun i hi => by
    rw [h2.core i (Nat.lt_of_lt_of_le hi h1.opsLen), h1.core i hi]
  tens := fun t ht => by
    rw [h2.tens t (Nat.lt_of_lt_of_le ht h1.tenLen), h1.tens t ht]
  ctxs := h2.ctxs.trans h1.ctxs
  regs := h2.regs.trans h1.regs
  ctrlMono := fun x b h => h2.ctrlMono x b (h1.ctrlMono x b h)
  mergeSome := fun k h => h2.mergeSome k (h1.mergeSome k h)
  newTensorProd := fun t ht1 ht2 => by
    by_cases hmid : t < st'.g.tensors.length
    · obtain ⟨hp, hm⟩ := h1.newTensorProd t ht1 hmid
      have hts : getTensor st''.g t = getTensor st'.g t := h2.tens t hmid
      rw [hts]
      refine ⟨Nat.lt_of_lt_of_le hp h2.opsLen, ?_⟩
      have hcore := h2.core _ hp
      rw [opType_of_coreEq hcore]
      exact hm
    · exact h2.newTensorProd t (Nat.le_of_not_lt hmid) ht2
  newOps := fun j hj => by
    by_cases hj2 : j < st'.g.ops.length
    · rw [opType_of_coreEq (h2.core j hj2)]
      exact h1.newOps j hj
    · exact h2.newOps j (Nat.le_of_not_lt hj2)

theorem gext_graph_addControlInput {st st' : EngineState} (h : GExt st st') (a b : Nat) :
    GExt st { st' with g := addControlInput st'.g a b } where
  opsLen := by rw [addControlInput_ops_length]; exact h.opsLen
  tenLen := by rw [addControlInput_tensors]; exact h.tenLen
  core := fun i hi => by rw [opCore_addControlInput]; exact h.core i hi
  tens := fun t ht => by
    show getTensor { st'.g with ops := _ } t = _
    rw [show getTensor { st'.g with ops := listModify st'.g.ops a _ } t = getTensor st'.g t from rfl]
    exact h.tens t ht
  ctxs := by rw [addControlInput_contexts]; exact h.ctxs
  regs := by rw [addControlInput_registeredOps]; exact h.regs
  ctrlMono := fun x b' hb => by
    rw [mem_ctrl_addControlInput_iff]
    exact Or.inl (h.ctrlMono x b' hb)
  mergeSome := h.mergeSome
  newTensorProd := fun t ht1 ht2 => by
    have ht2' : t < st'.g.tensors.length := by
      rw [addControlInput_tensors] at ht2; exact ht2
    have hres := h.newTensorProd t ht1 ht2'
    have htt : getTensor (addControlInput st'.g a b) t = getTensor st'.g t := rfl
    rw [htt]
    obtain ⟨hp, hm⟩ := hres
    refine ⟨by rw [addControlInput_ops_length]; exact hp, ?_⟩
    rw [opType_of_coreEq (opCore_addControlInput st'.g a b _)]
    exact hm
  newOps := fun j hj => by
    rw [opType_of_coreEq (opCore_addControlInput st'.g a b j)]
    exact h.newOps j hj

theorem gext_set_lastUser {st st' : EngineState} (h : GExt st st')
    (lu : List (Option Nat × Nat)) : GExt st { st' with lastUser := lu } where
  opsLen := h.opsLen
  tenLen := h.tenLen
  core := h.core
  tens := h.tens
  ctxs := h.ctxs
  regs := h.regs
  ctrlMono := h.ctrlMono
  mergeSome := h.mergeSome
  newTensorProd := h.newTensorProd
  newOps := h.newOps

theorem gext_set_mustRun {st st' : EngineState} (h : GExt st st')
    (mr : List Nat) : GExt st { st' with mustRun := mr } where
  opsLen := h.opsLen
  tenLen := h.tenLen
  core := h.core
  tens := h.tens
  ctxs := h.ctxs
  regs := h.regs
  ctrlMono := h.ctrlMono
  mergeSome := h.mergeSome
  newTensorProd := h.newTensorProd
  newOps := h.newOps

theorem alookup_isSome_cons {β : Type} (l : List (Nat × β)) (k : Nat) (kv : Nat × β)
    (h : (alookup l k).isSome) : (alookup (kv :: l) k).isSome := by
  show (if kv.1 = k then some kv.2 else alookup l k).isSome
  by_cases hk : kv.1 = k
  · rw [if_pos hk]; rfl
  · rw [if_neg hk]; exact h

theorem gext_cons_mergeFor {st st' : EngineState} (h : GExt st st')
    (kv : Nat × Nat) : GExt st { st' with mergeFor := kv :: st'.mergeFor } where
  opsLen := h.opsLen
  tenLen := h.tenLen
  core := h.core
  tens := h.tens
  ctxs := h.ctxs
  regs := h.regs
  ctrlMono := h.ctrlMono
  mergeSome := fun k hk => alookup_isSome_cons _ _ _ (h.mergeSome k hk)
  newTensorProd := h.newTensorProd
  newOps := h.newOps

theorem gext_fold_mergeFor {st st' : EngineState} (h : GExt st st')
    (outs : List Nat) (m : Nat) :
    GExt st { st' with mergeFor := outs.foldl (fun mf o => (o, m) :: mf) st'.mergeFor } := by
  induction outs generalizing st' with
  | nil => exact h
  | cons o os ih =>
    have step : GExt st { st' with mergeFor := (o, m) :: st'.mergeFor } :=
      gext_cons_mergeFor h (o, m)
    exact ih step

theorem getOp_append_lt (g : Graph) (mo : Operation) (ts : List TensorInfo) (x : Nat)
    (h : x < g.ops.length) :
    getOp (appendMergeG g mo ts) x = getOp g x := by
  show (g.ops ++ [mo]).getD x defaultOp = g.ops.getD x defaultOp
  exact getD_append_lt _ _ _ _ h

theorem getOp_append_self (g : Graph) (mo : Operation) (ts : List TensorInfo) :
    getOp (appendMergeG g mo ts) g.ops.length = mo := by
  show (g.ops ++ [mo]).getD g.ops.length defaultOp = mo
  rw [getD_append_ge _ _ _ _ (Nat.lt_irrefl _), Nat.sub_self]
  rfl

theorem getOp_append_gt (g : Graph) (mo : Operation) (ts : List TensorInfo) (x : Nat)
    (h : g.ops.length < x) :
    getOp (appendMergeG g mo ts) x = defaultOp := by
  show (g.ops ++ [mo]).getD x defaultOp = defaultOp
  rw [getD_append_ge _ _ _ _ (Nat.not_lt.mpr (Nat.le_of_lt h))]
  have h2 : 1 ≤ x - g.ops.length := by omega
  cases hv : x - g.ops.length with
  | zero => rw [hv] at h2; exact absurd h2 (by decide)
  | succ m => simp [List.getD]

theorem getTensor_append_lt (g : Graph) (mo : Operation) (ts : List TensorInfo) (t : Nat)
    (h : t < g.tensors.length) :
    getTensor (appendMergeG g mo ts) t = getTensor g t := by
  show (g.tensors ++ ts).getD t defaultTensor = g.tensors.getD t defaultTensor
  exact getD_append_lt _ _ _ _ h

theorem appendMergeG_ops_length (g : Graph) (mo : Operation) (ts : List TensorInfo) :
    (appendMergeG g mo ts).ops.length = g.ops.length + 1 := by
  show (g.ops ++ [mo]).length = _
  rw [List.length_append]
  rfl

theorem appendMergeG_tensors_length (g : Graph) (mo : Operation) (ts : List TensorInfo) :
    (appendMergeG g mo ts).tensors.length = g.tensors.length + ts.length := by
  show (g.tensors ++ ts).length = _
  exact List.length_append _ _

theorem gext_append {st st' : EngineState} (h : GExt st st') (mo : Operation)
    (hmo : mo.opType = "Merge") (ts : List TensorInfo)
    (hts : ∀ ti ∈ ts, ti.producer = st'.g.ops.length) :
    GExt st { st' with g := appendMergeG st'.g mo ts } where
  opsLen := by
    rw [appendMergeG_ops_length]
    exact Nat.le_trans h.opsLen (Nat.le_add_right _ _)
  tenLen := by
    rw [appendMergeG_tensors_length]
    exact Nat.le_trans h.tenLen (Nat.le_add_right _ _)
  core := fun i hi => by
    rw [getOp_append_lt _ _ _ _ (Nat.lt_of_lt_of_le hi h.opsLen)]
    exact h.core i hi
  tens := fun t ht => by
    rw [getTensor_append_lt _ _ _ _ (Nat.lt_of_lt_of_le ht h.tenLen)]
    exact h.tens t ht
  ctxs := h.ctxs
  regs := h.regs
  ctrlMono := fun x b hb => by
    have hb2 := h.ctrlMono x b hb
    by_cases hx : x < st'.g.ops.length
    · show b ∈ ctrl (appendMergeG st'.g mo ts) x
      unfold ctrl
      rw [getOp_append_lt _ _ _ _ hx]
      exact hb2
    · have hdef : getOp st'.g x = defaultOp := by
        unfold getOp
        rw [List.getD_eq_getElem?_getD, List.getElem?_eq_none (Nat.le_of_not_lt hx)]
        rfl
      unfold ctrl at hb2
      rw [hdef] at hb2
      exact absurd hb2 (List.not_mem_nil b)
  mergeSome := h.mergeSome
  newTensorProd := fun t ht1 ht2 => by
    by_cases hmid : t < st'.g.tensors.length
    · obtain ⟨hp, hm⟩ := h.newTensorProd t ht1 hmid
      show (getTensor (appendMergeG st'.g mo ts) t).producer < _ ∧ _
      rw [getTensor_append_lt _ _ _ _ hmid]
      constructor
      · rw [appendMergeG_ops_length]
        exact Nat.lt_of_lt_of_le hp (Nat.le_add_right _ _)
      · rw [getOp_append_lt _ _ _ _ hp]
        exact hm
    · have hgt : getTensor (appendMergeG st'.g mo ts) t
          = ts.getD (t - st'.g.tensors.length) defaultTensor := by
        show (st'.g.tensors ++ ts).getD t defaultTensor = _
        exact getD_append_ge _ _ _ _ hmid
      have htlen : t - st'.g.tensors.length < ts.length := by
        have ht2' : t < st'.g.tensors.length + ts.length := by
          have hlen := appendMergeG_tensors_length st'.g mo ts
          show t < _
          rw [← hlen]
          exact ht2
        omega
      have hprod : (ts.getD (t - st'.g.tensors.length) defaultTensor).producer
          = st'.g.ops.length :=
        hts _ (getD_mem_of_lt _ _ _ htlen)
      show (getTensor (appendMergeG st'.g mo ts) t).producer < _ ∧ _
      rw [hgt, hprod]
      constructor
      · rw [appendMergeG_ops_length]
        omega
      · rw [getOp_append_self]
        exact hmo
  newOps := fun j hj => by
    by_cases hj1 : j < st'.g.ops.length
    · rw [getOp_append_lt _ _ _ _ hj1]
      exact h.newOps j hj
    · by_cases hj2 : j = st'.g.ops.length
      · rw [hj2, getOp_append_self, hmo]
        decide
      · rw [getOp_append_gt _ _ _ _ (Nat.lt_of_le_of_ne (Nat.le_of_not_lt hj1)
          (fun hx => hj2 hx.symm))]
        decide

theorem psNewTensors_producer (g : Graph) (inpT : Nat) :
    ∀ ti ∈ psNewTensors g inpT, ti.producer = g.ops.length := by
  intro ti hti
  simp only [psNewTensors, List.mem_cons, List.not_mem_nil, or_false] at hti
  rcases hti with rfl | rfl <;> rfl

theorem gext_psCreate (s inpT : Nat) (op : Operation) (st1 : EngineState) :
    GExt st1 (psCreate s inpT op st1) := by
  simp only [psCreate]
  have h1 : GExt st1 { st1 with
      g := appendMergeG st1.g (psMergeOp st1.g op) (psNewTensors st1.g inpT) } :=
    gext_append (gext_refl st1) _ rfl _ (psNewTensors_producer st1.g inpT)
  have h2 := gext_set_mustRun h1 (insertIfAbsent st1.mustRun st1.g.ops.length)
  cases hl : alookup st1.lastUser (some inpT) with
  | none =>
    simp only [hl]
    cases hm : alookup st1.mergeFor inpT with
    | none =>
      simp only [hm]
      exact gext_fold_mergeFor (gext_set_lastUser h2 _) op.outputs _
    | some m =>
      simp only [hm]
      exact gext_fold_mergeFor (gext_graph_addControlInput (gext_set_lastUser h2 _) m _) op.outputs _
  | some lastOp =>
    simp only [hl]
    have h3 := gext_graph_addControlInput h2 s lastOp
    cases hm : alookup st1.mergeFor inpT with
    | none =>
      simp only [hm]
      exact gext_fold_mergeFor (gext_set_lastUser h3 _) op.outputs _
    | some m =>
      simp only [hm]
      exact gext_fold_mergeFor (gext_graph_addControlInput (gext_set_lastUser h3 _) m _) op.outputs _

theorem psGExt : ∀ (fuel s : Nat) (st : EngineState), GExt st (processSwitch fuel s st) := by
  intro fuel
  induction fuel with
  | zero => intro s st; exact gext_refl st
  | succ f ih =>
    intro s st
    simp only [processSwitch]
    cases hinp : (getOp st.g s).inputs.head? with
    | none => exact gext_refl st
    | some inpT =>
      dsimp only
      by_cases hC : (getTensor st.g inpT).dtype = DType.resource ∧
          (getOp st.g (getTensor st.g inpT).producer).opType = "Switch"
      · rw [if_pos hC]
        cases hout : (getOp st.g s).outputs.head? with
        | none => exact ih _ st
        | some outT =>
          dsimp only
          split
          · exact ih _ st
          · exact gext_trans (ih _ st) (gext_psCreate s inpT (getOp st.g s) _)
      · rw [if_neg hC]
        cases hout : (getOp st.g s).outputs.head? with
        | none => exact gext_refl st
        | some outT =>
          dsimp only
          split
          · exact gext_refl st
          · exact gext_psCreate s inpT (getOp st.g s) st

theorem gext_graph_addControlInputs {st st' : EngineState} (h : GExt st st')
    (a : Nat) (l : List Nat) :
    GExt st { st' with g := addControlInputs st'.g a l } := by
  induction l generalizing st' with
  | nil => exact h
  | cons y ys ih =>
    have h1 := gext_graph_addControlInput h a y
    have h2 := ih h1
    exact h2

theorem gext_procOne (i : Nat) (c : Option Nat)
    (acc : EngineState × List Nat × List Nat) (t : Nat) :
    GExt acc.1 (procOneInput i c acc t).1 := by
  simp only [procOneInput]
  by_cases hd : (getTensor acc.1.g t).dtype ≠ DType.resource
  · rw [if_pos hd]; exact gext_refl _
  · rw [if_neg hd]
    by_cases hm : t ∈ acc.2.2
    · rw [if_pos hm]; exact gext_refl _
    · rw [if_neg hm]
      dsimp only
      have hA : GExt acc.1 (if (getOp acc.1.g (getTensor acc.1.g t).producer).opType = "Switch"
          then processSwitch acc.1.g.ops.length (getTensor acc.1.g t).producer acc.1
          else acc.1) := by
        split
        · exact psGExt _ _ _
        · exact gext_refl _
      set stA := (if (getOp acc.1.g (getTensor acc.1.g t).producer).opType = "Switch"
          then processSwitch acc.1.g.ops.length (getTensor acc.1.g t).producer acc.1
          else acc.1) with hstA
      cases hmf : alookup stA.mergeFor t with
      | none =>
        dsimp only
        exact gext_set_lastUser hA _
      | some m =>
        dsimp only
        exact gext_set_lastUser (gext_graph_addControlInput hA m i) _

theorem gext_foldProc (i : Nat) (c : Option Nat) :
    ∀ (l : List Nat) (acc : EngineState × List Nat × List Nat),
      GExt acc.1 (l.foldl (procOneInput i c) acc).1 := by
  intro l
  induction l with
  | nil => intro acc; exact gext_refl _
  | cons t ts ihl =>
    intro acc
    exact gext_trans (gext_procOne i c acc t) (ihl (procOneInput i c acc t))

theorem gext_absorbOne (i : Nat) (st : EngineState) (o : Nat) :
    GExt st (absorbOne i st o) := by
  simp only [absorbOne]
  exact gext_set_lastUser (gext_graph_addControlInput (gext_refl st) i o) _

theorem gext_foldAbsorb (i : Nat) :
    ∀ (l : List Nat) (st : EngineState), GExt st (l.foldl (absorbOne i) st) := by
  intro l
  induction l with
  | nil => intro st; exact gext_refl st
  | cons o os ihl =>
    intro st
    exact gext_trans (gext_absorbOne i st o) (ihl (absorbOne i st o))

theorem gext_stepOp (st : EngineState) (i : Nat) : GExt st (stepOp st i) := by
  simp only [stepOp]
  split
  · exact gext_refl st
  · have h1 : GExt st (if !(st.g.registeredOps.contains (getOp st.g i).opType)
        || opIsStateful (getOp st.g i) then
          { st with mustRun := insertIfAbsent st.mustRun i } else st) := by
      split
      · exact gext_set_mustRun (gext_refl st) _
      · exact gext_refl st
    set st1 := (if !(st.g.registeredOps.contains (getOp st.g i).opType)
        || opIsStateful (getOp st.g i) then
          { st with mustRun := insertIfAbsent st.mustRun i } else st) with hst1
    split
    · exact h1
    · split
      · exact gext_set_mustRun (gext_trans h1 (gext_foldAbsorb i st1.mustRun st1)) _
      · have h2 : GExt st ((getOp st.g i).inputs.foldl
            (procOneInput i (getOp st.g i).ctx) (st1, [], [])).1 :=
          gext_trans h1 (gext_foldProc i (getOp st.g i).ctx (getOp st.g i).inputs (st1, [], []))
        set r := (getOp st.g i).inputs.foldl (procOneInput i (getOp st.g i).ctx) (st1, [], [])
          with hr
        set stM := (match alookup r.1.lastUser none with
          | some p => { r.1 with g := addControlInput r.1.g i p }
          | none => r.1) with hstM
        have hM : GExt st stM := by
          rw [hstM]
          cases hl : alookup r.1.lastUser none with
          | none => exact h2
          | some p => exact gext_graph_addControlInput h2 i p
        have h3 : GExt st (if opIsStateful (getOp st.g i) ∧ r.2.2 = [] ∧
            (getOp st.g i).ctx = none then
              { stM with lastUser := (none, i) :: stM.lastUser }
            else r.1) := by
          split
          · exact gext_set_lastUser hM _
          · exact h2
        exact gext_graph_addControlInputs h3 i _

theorem gext_runFrom : ∀ (k p : Nat) (st : EngineState), GExt st (runFrom st p k) := by
  intro k
  induction k with
  | zero => intro p st; exact gext_refl st
  | succ m ih =>
    intro p st
    show GExt st (runFrom (stepOp st p) (p + 1) m)
    exact gext_trans (gext_stepOp st p) (ih (p + 1) (stepOp st p))

theorem getTensor_oor (g : Graph) (t : Nat) (h : g.tensors.length ≤ t) :
    getTensor g t = defaultTensor := by
  unfold getTensor
  rw [List.getD_eq_getElem?_getD, List.getElem?_eq_none h]
  rfl

theorem opInRange_of_head?_some (g : Graph) (s t : Nat)
    (h : (getOp g s).inputs.head? = some t) : s < g.ops.length := by
  by_contra hs
  rw [getOp_oor g s (Nat.le_of_not_lt hs)] at h
  cases h

theorem mem_of_head?_some {α : Type} {l : List α} {a : α} (h : l.head? = some a) :
    a ∈ l := by
  cases l with
  | nil => cases h
  | cons x xs =>
    cases h
    exact List.mem_cons_self _ _

theorem alookup_fold_isSome (outs : List Nat) (m : Nat) (k : Nat) :
    ∀ mf0 : List (Nat × Nat), (k ∈ outs ∨ (alookup mf0 k).isSome) →
      (alookup (outs.foldl (fun mf o => (o, m) :: mf) mf0) k).isSome := by
  induction outs with
  | nil =>
    intro mf0 h
    rcases h with h | h
    · cases h
    · exact h
  | cons o os ih =>
    intro mf0 h
    show (alookup (os.foldl (fun mf o' => (o', m) :: mf) ((o, m) :: mf0)) k).isSome
    apply ih
    rcases h with h | h
    · rcases List.mem_cons.mp h with h1 | h2
      · right
        show (if o = k then some m else alookup mf0 k).isSome
        rw [if_pos h1.symm]
        rfl
      · left; exact h2
    · right
      exact alookup_isSome_cons _ _ _ h

theorem psCreate_mergeFor (s inpT : Nat) (op : Operation) (st1 : EngineState) :
    (psCreate s inpT op st1).mergeFor =
      op.outputs.foldl (fun mf o => (o, st1.g.ops.length) :: mf) st1.mergeFor := by
  simp only [psCreate]
  cases hl : alookup st1.lastUser (some inpT) with
  | none =>
    cases hm : alookup st1.mergeFor inpT with
    | none => rfl
    | some m => rfl
  | some lastOp =>
    cases hm : alookup st1.mergeFor inpT with
    | none => rfl
    | some m => rfl

theorem psResolved_gext : ∀ (f : Nat) {st st' : EngineState} (p : Nat),
    GExt st st' → p < st.g.ops.length → psResolved f p st → psResolved f p st' := by
  intro f
  induction f with
  | zero => intro st st' p _ _ _; trivial
  | succ f ih =>
    intro st st' p hg hp hres
    have hcore := hg.core p hp
    simp only [psResolved] at hres ⊢
    rw [inputs_of_coreEq hcore]
    cases hinp : (getOp st.g p).inputs.head? with
    | none => trivial
    | some inpT =>
      rw [hinp] at hres
      obtain ⟨hc1, hc2⟩ := hres
      constructor
      · intro hC'
        by_cases hin : inpT < st.g.tensors.length
        · have hten : getTensor st'.g inpT = getTensor st.g inpT := hg.tens inpT hin
          rw [hten] at hC' ⊢
          have hq : (getTensor st.g inpT).producer < st.g.ops.length := by
            by_contra hq
            exact (hg.newOps _ (Nat.le_of_not_lt hq)) hC'.2
          have hC : (getTensor st.g inpT).dtype = DType.resource ∧
              (getOp st.g (getTensor st.g inpT).producer).opType = "Switch" := by
            refine ⟨hC'.1, ?_⟩
            rw [← opType_of_coreEq (hg.core _ hq)]
            exact hC'.2
          exact ih _ hg hq (hc1 hC)
        · exfalso
          by_cases hin2 : inpT < st'.g.tensors.length
          · obtain ⟨_, hm2⟩ := hg.newTensorProd inpT (Nat.le_of_not_lt hin) hin2
            have : ("Merge" : String) = "Switch" := hm2.symm.trans hC'.2
            exact absurd this (by decide)
          · rw [getTensor_oor st'.g inpT (Nat.le_of_not_lt hin2)] at hC'
            exact absurd hC'.1 (by decide)
      · intro outT houtT
        rw [outputs_of_coreEq hcore] at houtT
        exact hg.mergeSome outT (hc2 outT houtT)

theorem opInRange_of_opType_switch (g : Graph) (j : Nat)
    (h : (getOp g j).opType = "Switch") : j < g.ops.length := by
  by_contra hj
  rw [getOp_oor g j (Nat.le_of_not_lt hj)] at h
  exact absurd h (by decide)

theorem psConj1 (f : Nat) (st r : EngineState) (inpT : Nat)
    (hgr : GExt st r)
    (hCtrue : (getTensor st.g inpT).dtype = DType.resource ∧
        (getOp st.g (getTensor st.g inpT).producer).opType = "Switch" →
        psResolved f (getTensor st.g inpT).producer r) :
    ((getTensor r.g inpT).dtype = DType.resource ∧
        (getOp r.g (getTensor r.g inpT).producer).opType = "Switch") →
      psResolved f (getTensor r.g inpT).producer r := by
  intro hC'
  by_cases hin : inpT < st.g.tensors.length
  · have hten : getTensor r.g inpT = getTensor st.g inpT := hgr.tens inpT hin
    rw [hten] at hC' ⊢
    have hq : (getTensor st.g inpT).producer < st.g.ops.length := by
      by_contra hq
      exact (hgr.newOps _ (Nat.le_of_not_lt hq)) hC'.2
    refine hCtrue ⟨hC'.1, ?_⟩
    rw [← opType_of_coreEq (hgr.core _ hq)]
    exact hC'.2
  · exfalso
    by_cases hin2 : inpT < r.g.tensors.length
    · obtain ⟨_, hm2⟩ := hgr.newTensorProd inpT (Nat.le_of_not_lt hin) hin2
      have hms : ("Merge" : String) = "Switch" := hm2.symm.trans hC'.2
      exact absurd hms (by decide)
    · rw [getTensor_oor r.g inpT (Nat.le_of_not_lt hin2)] at hC'
      exact absurd hC'.1 (by decide)

theorem psResolved_processSwitch : ∀ (f s : Nat) (st : EngineState),
    psResolved f s (processSwitch f s st) := by
  intro f
  induction f with
  | zero => intro s st; trivial
  | succ f ih =>
    intro s st
    simp only [processSwitch]
    cases hinp : (getOp st.g s).inputs.head? with
    | none =>
      simp only [psResolved]
      rw [hinp]
      trivial
    | some inpT =>
      dsimp only
      have hs : s < st.g.ops.length := opInRange_of_head?_some st.g s inpT hinp
      by_cases hC : (getTensor st.g inpT).dtype = DType.resource ∧
          (getOp st.g (getTensor st.g inpT).producer).opType = "Switch"
      · rw [if_pos hC]
        have hg1 : GExt st (processSwitch f (getTensor st.g inpT).producer st) :=
          psGExt f _ st
        have hres1 : psResolved f (getTensor st.g inpT).producer
            (processSwitch f (getTensor st.g inpT).producer st) := ih _ st
        have hq : (getTensor st.g inpT).producer < st.g.ops.length :=
          opInRange_of_opType_switch st.g _ hC.2
        cases hout : (getOp st.g s).outputs.head? with
        | none =>
          simp only [psResolved]
          rw [inputs_of_coreEq (hg1.core s hs), hinp]
          refine ⟨psConj1 f st _ inpT hg1 (fun _ => hres1), ?_⟩
          intro outT houtT
          rw [outputs_of_coreEq (hg1.core s hs), hout] at houtT
          cases houtT
        | some outT =>
          dsimp only
          split
          · next hms =>
            simp only [psResolved]
            rw [inputs_of_coreEq (hg1.core s hs), hinp]
            refine ⟨psConj1 f st _ inpT hg1 (fun _ => hres1), ?_⟩
            intro outT' houtT'
            rw [outputs_of_coreEq (hg1.core s hs), hout] at houtT'
            cases houtT'
            exact hms
          · next hms =>
            have hgc := gext_psCreate s inpT (getOp st.g s)
              (processSwitch f (getTensor st.g inpT).producer st)
            have hgr : GExt st (psCreate s inpT (getOp st.g s)
                (processSwitch f (getTensor st.g inpT).producer st)) :=
              gext_trans hg1 hgc
            simp only [psResolved]
            rw [inputs_of_coreEq (hgr.core s hs), hinp]
            refine ⟨psConj1 f st _ inpT hgr (fun _ => psResolved_gext f _ hgc
              (Nat.lt_of_lt_of_le hq hg1.opsLen) hres1), ?_⟩
            intro outT' houtT'
            rw [outputs_of_coreEq (hgr.core s hs), hout] at houtT'
            cases houtT'
            rw [psCreate_mergeFor]
            apply alookup_fold_isSome
            left
            exact mem_of_head?_some hout
      · rw [if_neg hC]
        cases hout : (getOp st.g s).outputs.head? with
        | none =>
          simp only [psResolved]
          rw [hinp]
          refine ⟨psConj1 f st st inpT (gext_refl st) (fun hC2 => absurd hC2 hC), ?_⟩
          intro outT houtT
          rw [hout] at houtT
          cases houtT
        | some outT =>
          dsimp only
          split
          · next hms =>
            simp only [psResolved]
            rw [hinp]
            refine ⟨psConj1 f st st inpT (gext_refl st) (fun hC2 => absurd hC2 hC), ?_⟩
            intro outT' houtT'
            rw [hout] at houtT'
            cases houtT'
            exact hms
          · next hms =>
            have hgc := gext_psCreate s inpT (getOp st.g s) st
            simp only [psResolved]
            rw [inputs_of_coreEq (hgc.core s hs), hinp]
            refine ⟨psConj1 f st _ inpT hgc (fun hC2 => absurd hC2 hC), ?_⟩
            intro outT' houtT'
            rw [outputs_of_coreEq (hgc.core s hs), hout] at houtT'
            cases houtT'
            rw [psCreate_mergeFor]
            apply alookup_fold_isSome
            left
            exact mem_of_head?_some hout

theorem processSwitch_of_resolved : ∀ (f s : Nat) (st : EngineState),
    psResolved f s st → processSwitch f s st = st := by
  intro f
  induction f with
  | zero => intro s st _; rfl
  | succ f ih =>
    intro s st h
    simp only [psResolved] at h
    simp only [processSwitch]
    cases hinp : (getOp st.g s).inputs.head? with
    | none => rfl
    | some inpT =>
      rw [hinp] at h
      obtain ⟨hc1, hc2⟩ := h
      dsimp only
      have hst1 : (if (getTensor st.g inpT).dtype = DType.resource ∧
          (getOp st.g (getTensor st.g inpT).producer).opType = "Switch" then
            processSwitch f (getTensor st.g inpT).producer st
          else st) = st := by
        by_cases hC : (getTensor st.g inpT).dtype = DType.resource ∧
            (getOp st.g (getTensor st.g inpT).producer).opType = "Switch"
        · rw [if_pos hC]
          exact ih _ st (hc1 hC)
        · rw [if_neg hC]
      rw [hst1]
      cases hout : (getOp st.g s).outputs.head? with
      | none => rfl
      | some outT =>
        dsimp only
        rw [if_pos (hc2 outT hout)]

theorem mem_insertIfAbsent_iff (l : List Nat) (x y : Nat) :
    y ∈ insertIfAbsent l x ↔ y ∈ l ∨ y = x := by
  unfold insertIfAbsent
  split
  · constructor
    · exact fun h => Or.inl h
    · rintro (h | rfl) <;> [exact h; assumption]
  · simp [List.mem_append]

theorem mem_addReturned_self (l : List Nat) (x : Nat) : x ∈ addReturned l x := by
  unfold addReturned
  split
  · assumption
  · simp

theorem mem_addReturned_of_mem (l : List Nat) (x y : Nat) (h : y ∈ l) :
    y ∈ addReturned l x := by
  unfold addReturned
  split
  · exact h
  · simp [h]

theorem merge_not_blacklisted : ("Merge" : String) ∉ allBlacklistedOps := by decide

theorem switch_not_blacklisted : ("Switch" : String) ∉ allBlacklistedOps := by decide

/-- C2 (claim theorem).  First conjunct: on the demonstration conditional in
which both branches write the same resource through the Switch (op 2), the
pass synthesizes exactly one merge (op 5): it is the only Merge-kind op of
the resulting graph, its data inputs are precisely the Switch's two outputs,
its context is the outer context of the Switch's context, it is must-run,
and each branch-local writer (ops 3 and 4) has a control edge into it.
Second conjunct: re-invoking the switch-resolution protocol on an
already-resolved switch is a no-op — `processSwitch` is idempotent for every
fuel, switch and engine state. -/
theorem claim_C2_cond_synthesized_merge :
    ((runEngine condDemoG 0).g.ops.length = 6 ∧
     (runEngine condDemoG 0).g.ops.countP (fun o => o.opType == "Merge") = 1 ∧
     (getOp (runEngine condDemoG 0).g 5).opType = "Merge" ∧
     (getOp (runEngine condDemoG 0).g 5).inputs = (getOp condDemoG 2).outputs ∧
     (getOp (runEngine condDemoG 0).g 5).ctx = outerOf condDemoG (getOp condDemoG 2).ctx ∧
     5 ∈ (runEngine condDemoG 0).mustRun ∧
     3 ∈ ctrl (runEngine condDemoG 0).g 5 ∧
     4 ∈ ctrl (runEngine condDemoG 0).g 5) ∧
    (∀ (fuel s : Nat) (st : EngineState),
      processSwitch fuel s (processSwitch fuel s st) = processSwitch fuel s st) := by
  constructor
  · decide
  · intro fuel s st
    exact processSwitch_of_resolved fuel s _ (psResolved_processSwitch fuel s st)

/-- C6 (claim theorem): closing the region when the active graph's identity
differs from the one recorded at `begin()` aborts with the consistency error;
the check precedes every mutation of `__exit__`, so no graph is produced and
no control edges are added by the aborted pass. -/
theorem claim_C6_graph_identity_mismatch (acd : ACDState) (g : Graph)
    (h : acd.graphId ≠ some g.gid) :
    acdExit false acd g =
      Except.error "Graph changed while trying to add control dependencies." := by
  unfold acdExit
  rw [if_neg (by decide)]
  rw [if_neg h]

/-- C6 witness at a concrete mismatching pair. -/
theorem claim_C6_witness :
    acdExit false ⟨[], [], some 5, 0⟩ seqDemoG =
      Except.error "Graph changed while trying to add control dependencies." :=
  claim_C6_graph_identity_mismatch ⟨[], [], some 5, 0⟩ seqDemoG (by decide)

theorem mkIdentity_snd_of_mkIdentity (g : Graph) (c c' : Option Nat) (v i : Nat) :
    (mkIdentity (mkIdentity g c v).1 c' i).2 = g.tensors.length + 1 := by
  show ((mkIdentity g c v).1.tensors).length = _
  show (g.tensors ++ [_]).length = _
  rw [List.length_append]
  rfl

/-- C10 counterexample: the claim asserts that in eager mode
`mark_as_return` creates a new identity operation **for each leaf tensor**
and registers the new outputs.  Eager `__enter__`/`__exit__` are indeed
no-ops, and `mark_as_return` is indeed not a no-op, but on a resizable-array
handle with its flow token (two leaf tensors) it appends exactly **one**
identity (for the flow), the handle leaf `0` is passed through uncopied into
the rebuilt composite, and `0` is never registered in the returned set. -/
theorem claim_C10_counterexample :
    acdEnter true acdInit c8G = (acdInit, c8G) ∧
    acdExit true acdInit c8G = Except.ok (c8G, acdInit) ∧
    (markAsReturn acdInit c8G none (.tensorArray 0 1)).2.1.ops.length
        = c8G.ops.length + 1 ∧
    (markAsReturn acdInit c8G none (.tensorArray 0 1)).2.2
        = RValue.tensorArray 0 3 ∧
    (markAsReturn acdInit c8G none (.tensorArray 0 1)).1.returnedTensors = [3] ∧
    0 ∉ (markAsReturn acdInit c8G none (.tensorArray 0 1)).1.returnedTensors :=
  ⟨by decide, rfl, by decide, by decide, by decide, by decide⟩

/-- C10 (amended): in eager execution mode, entering and exiting the region
perform no graph mutation, but `mark_as_return` is not a no-op: it creates a
new identity operation for each leaf it copies — the plain tensor, the
values and indices leaves of a sparse or variable-length-slice composite,
the flow token of a resizable-array handle — and registers those new
outputs in the returned set, while the dense-shape leaf (resp. the array
handle) is passed through uncopied; this is exactly the graph-mode
behaviour, as `mark_as_return` has no execution-mode branch. -/
theorem claim_C10_amended :
    (∀ (acd : ACDState) (g : Graph), acdEnter true acd g = (acd, g)) ∧
    (∀ (acd : ACDState) (g : Graph), acdExit true acd g = Except.ok (g, acd)) ∧
    (∀ (acd : ACDState) (g : Graph) (c : Option Nat) (t : Nat),
      (markAsReturn acd g c (.plain t)).2.1.ops.length = g.ops.length + 1 ∧
      (getOp (markAsReturn acd g c (.plain t)).2.1 g.ops.length).opType = "Identity" ∧
      (getOp (markAsReturn acd g c (.plain t)).2.1 g.ops.length).inputs = [t] ∧
      g.tensors.length ∈ (markAsReturn acd g c (.plain t)).1.returnedTensors ∧
      (markAsReturn acd g c (.plain t)).2.2 = RValue.plain g.tensors.length) ∧
    (∀ (acd : ACDState) (g : Graph) (c : Option Nat) (i v : Nat) (sh : Option Nat),
      (markAsReturn acd g c (.indexedSlices v i sh)).2.1.ops.length = g.ops.length + 2 ∧
      (getOp (markAsReturn acd g c (.indexedSlices v i sh)).2.1 g.ops.length).opType
          = "Identity" ∧
      (getOp (markAsReturn acd g c (.indexedSlices v i sh)).2.1
          (g.ops.length + 1)).opType = "Identity" ∧
      g.tensors.length ∈ (markAsReturn acd g c (.indexedSlices v i sh)).1.returnedTensors ∧
      g.tensors.length + 1
          ∈ (markAsReturn acd g c (.indexedSlices v i sh)).1.returnedTensors ∧
      (markAsReturn acd g c (.indexedSlices v i sh)).2.2
          = RValue.indexedSlices g.tensors.length (g.tensors.length + 1) sh) ∧
    (∀ (acd : ACDState) (g : Graph) (c : Option Nat) (i v sh : Nat),
      (markAsReturn acd g c (.sparse i v sh)).2.1.ops.length = g.ops.length + 2 ∧
      (getOp (markAsReturn acd g c (.sparse i v sh)).2.1 g.ops.length).opType
          = "Identity" ∧
      (getOp (markAsReturn acd g c (.sparse i v sh)).2.1 (g.ops.length + 1)).opType
          = "Identity" ∧
      g.tensors.length ∈ (markAsReturn acd g c (.sparse i v sh)).1.returnedTensors ∧
      g.tensors.length + 1 ∈ (markAsReturn acd g c (.sparse i v sh)).1.returnedTensors ∧
      (markAsReturn acd g c (.sparse i v sh)).2.2
          = RValue.sparse (g.tensors.length + 1) g.tensors.length sh) ∧
    (∀ (acd : ACDState) (g : Graph) (c : Option Nat) (h fl : Nat),
      (markAsReturn acd g c (.tensorArray h fl)).2.1.ops.length = g.ops.length + 1 ∧
      (getOp (markAsReturn acd g c (.tensorArray h fl)).2.1 g.ops.length).opType
          = "Identity" ∧
      g.tensors.length ∈ (markAsReturn acd g c (.tensorArray h fl)).1.returnedTensors ∧
      (markAsReturn acd g c (.tensorArray h fl)).2.2
          = RValue.tensorArray h g.tensors.length) := by
  refine ⟨fun acd g => rfl, fun acd g => rfl, fun acd g c t => ?_,
    fun acd g c i v sh => ?_, fun acd g c i v sh => ?_, fun acd g c h fl => ?_⟩
  · refine ⟨?_, ?_, ?_, ?_, rfl⟩
    · show (appendMergeG g _ _).ops.length = g.ops.length + 1
      rw [appendMergeG_ops_length]
    · show (getOp (appendMergeG g _ _) g.ops.length).opType = "Identity"
      rw [getOp_append_self]
    · show (getOp (appendMergeG g _ _) g.ops.length).inputs = [t]
      rw [getOp_append_self]
    · exact mem_addReturned_self _ _
  · refine ⟨?_, ?_, ?_, ?_, ?_, ?_⟩
    · show (appendMergeG (appendMergeG g _ _) _ _).ops.length = _
      rw [appendMergeG_ops_length, appendMergeG_ops_length]
    · show (getOp (appendMergeG (appendMergeG g _ _) _ _) g.ops.length).opType = _
      rw [getOp_append_lt _ _ _ _ (by rw [appendMergeG_ops_length]; omega)]
      rw [getOp_append_self]
    · show (getOp (appendMergeG (appendMergeG g _ _) _ _) (g.ops.length + 1)).opType = _
      rw [show g.ops.length + 1 = (appendMergeG g _ _).ops.length from
        (appendMergeG_ops_length g _ _).symm]
      rw [getOp_append_self]
    · exact mem_addReturned_self _ _
    · apply mem_addReturned_of_mem
      rw [← mkIdentity_snd_of_mkIdentity g c c v i]
      exact mem_addReturned_self _ _
    · show RValue.indexedSlices (mkIdentity g c v).2
          (mkIdentity (mkIdentity g c v).1 c i).2 sh = _
      rw [mkIdentity_snd_of_mkIdentity g c c v i]
      rfl
  · refine ⟨?_, ?_, ?_, ?_, ?_, ?_⟩
    · show (appendMergeG (appendMergeG g _ _) _ _).ops.length = _
      rw [appendMergeG_ops_length, appendMergeG_ops_length]
    · show (getOp (appendMergeG (appendMergeG g _ _) _ _) g.ops.length).opType = _
      rw [getOp_append_lt _ _ _ _ (by rw [appendMergeG_ops_length]; omega)]
      rw [getOp_append_self]
    · show (getOp (appendMergeG (appendMergeG g _ _) _ _) (g.ops.length + 1)).opType = _
      rw [show g.ops.length + 1 = (appendMergeG g _ _).ops.length from
        (appendMergeG_ops_length g _ _).symm]
      rw [getOp_append_self]
    · exact mem_addReturned_self _ _
    · apply mem_addReturned_of_mem
      rw [← mkIdentity_snd_of_mkIdentity g c c v i]
      exact mem_addReturned_self _ _
    · show RValue.sparse (mkIdentity (mkIdentity g c v).1 c i).2
          (mkIdentity g c v).2 sh = _
      rw [mkIdentity_snd_of_mkIdentity g c c v i]
      rfl
  · refine ⟨?_, ?_, ?_, rfl⟩
    · show (appendMergeG g _ _).ops.length = g.ops.length + 1
      rw [appendMergeG_ops_length]
    · show (getOp (appendMergeG g _ _) g.ops.length).opType = "Identity"
      rw [getOp_append_self]
    · exact mem_addReturned_self _ _

/-- C8 (counterexample): the claim states that for a sparse composite
`{indices, values, shape}` a new identity is created copying **each leaf
tensor component** and the composite is rebuilt **from the new identities**.
At this concrete input `mark_as_return` of the sparse value `(0, 1, 2)`
appends only two identity operations (for values and indices), the
dense-shape leaf `2` is passed through unchanged into the rebuilt composite,
and `2` is never registered in the returned set. -/
theorem claim_C8_counterexample :
    (markAsReturn acdInit c8G none (.sparse 0 1 2)).2.1.ops.length
        = c8G.ops.length + 2 ∧
    (markAsReturn acdInit c8G none (.sparse 0 1 2)).2.2 = RValue.sparse 4 3 2 ∧
    (markAsReturn acdInit c8G none (.sparse 0 1 2)).1.returnedTensors = [4, 3] ∧
    2 ∉ (markAsReturn acdInit c8G none (.sparse 0 1 2)).1.returnedTensors := by
  decide

/-- C8 (amended claim theorem): for every composite passed to
`mark_as_return`, a new identity operation is created for the *values* and
*indices* leaves of a sparse or variable-length-slice value and for the
*flow* (sequencing) token of a resizable-array handle, each new identity
output is registered in the returned set, and the result is the same kind of
composite rebuilt from those new identities — with the dense-shape leaf
(resp. the array handle) passed through unchanged rather than copied. -/
theorem claim_C8_amended :
    (∀ (acd : ACDState) (g : Graph) (c : Option Nat) (i v : Nat) (sh : Option Nat),
      (markAsReturn acd g c (.indexedSlices v i sh)).2.1.ops.length = g.ops.length + 2 ∧
      (getOp (markAsReturn acd g c (.indexedSlices v i sh)).2.1 g.ops.length).opType
          = "Identity" ∧
      (getOp (markAsReturn acd g c (.indexedSlices v i sh)).2.1 g.ops.length).inputs = [v] ∧
      (getOp (markAsReturn acd g c (.indexedSlices v i sh)).2.1 (g.ops.length + 1)).opType
          = "Identity" ∧
      (getOp (markAsReturn acd g c (.indexedSlices v i sh)).2.1 (g.ops.length + 1)).inputs
          = [i] ∧
      g.tensors.length ∈ (markAsReturn acd g c (.indexedSlices v i sh)).1.returnedTensors ∧
      g.tensors.length + 1
          ∈ (markAsReturn acd g c (.indexedSlices v i sh)).1.returnedTensors ∧
      (markAsReturn acd g c (.indexedSlices v i sh)).2.2
          = RValue.indexedSlices g.tensors.length (g.tensors.length + 1) sh) ∧
    (∀ (acd : ACDState) (g : Graph) (c : Option Nat) (i v sh : Nat),
      (markAsReturn acd g c (.sparse i v sh)).2.1.ops.length = g.ops.length + 2 ∧
      (getOp (markAsReturn acd g c (.sparse i v sh)).2.1 g.ops.length).opType
          = "Identity" ∧
      (getOp (markAsReturn acd g c (.sparse i v sh)).2.1 g.ops.length).inputs = [v] ∧
      (getOp (markAsReturn acd g c (.sparse i v sh)).2.1 (g.ops.length + 1)).opType
          = "Identity" ∧
      (getOp (markAsReturn acd g c (.sparse i v sh)).2.1 (g.ops.length + 1)).inputs = [i] ∧
      g.tensors.length ∈ (markAsReturn acd g c (.sparse i v sh)).1.returnedTensors ∧
      g.tensors.length + 1 ∈ (markAsReturn acd g c (.sparse i v sh)).1.returnedTensors ∧
      (markAsReturn acd g c (.sparse i v sh)).2.2
          = RValue.sparse (g.tensors.length + 1) g.tensors.length sh) ∧
    (∀ (acd : ACDState) (g : Graph) (c : Option Nat) (h fl : Nat),
      (markAsReturn acd g c (.tensorArray h fl)).2.1.ops.length = g.ops.length + 1 ∧
      (getOp (markAsReturn acd g c (.tensorArray h fl)).2.1 g.ops.length).opType
          = "Identity" ∧
      (getOp (markAsReturn acd g c (.tensorArray h fl)).2.1 g.ops.length).inputs = [fl] ∧
      g.tensors.length ∈ (markAsReturn acd g c (.tensorArray h fl)).1.returnedTensors ∧
      (markAsReturn acd g c (.tensorArray h fl)).2.2
          = RValue.tensorArray h g.tensors.length) := by
  refine ⟨fun acd g c i v sh => ?_, fun acd g c i v sh => ?_, fun acd g c h fl => ?_⟩
  · refine ⟨?_, ?_, ?_, ?_, ?_, ?_, ?_, ?_⟩
    · show (appendMergeG (appendMergeG g _ _) _ _).ops.length = _
      rw [appendMergeG_ops_length, appendMergeG_ops_length]
    · show (getOp (appendMergeG (appendMergeG g _ _) _ _) g.ops.length).opType = _
      rw [getOp_append_lt _ _ _ _ (by rw [appendMergeG_ops_length]; omega)]
      rw [getOp_append_self]
    · show (getOp (appendMergeG (appendMergeG g _ _) _ _) g.ops.length).inputs = _
      rw [getOp_append_lt _ _ _ _ (by rw [appendMergeG_ops_length]; omega)]
      rw [getOp_append_self]
    · show (getOp (appendMergeG (appendMergeG g _ _) _ _) (g.ops.length + 1)).opType = _
      rw [show g.ops.length + 1 = (appendMergeG g _ _).ops.length from
        (appendMergeG_ops_length g _ _).symm]
      rw [getOp_append_self]
    · show (getOp (appendMergeG (appendMergeG g _ _) _ _) (g.ops.length + 1)).inputs = _
      rw [show g.ops.length + 1 = (appendMergeG g _ _).ops.length from
        (appendMergeG_ops_length g _ _).symm]
      rw [getOp_append_self]
    · exact mem_addReturned_self _ _
    · apply mem_addReturned_of_mem
      rw [← mkIdentity_snd_of_mkIdentity g c c v i]
      exact mem_addReturned_self _ _
    · show RValue.indexedSlices (mkIdentity g c v).2
          (mkIdentity (mkIdentity g c v).1 c i).2 sh = _
      rw [mkIdentity_snd_of_mkIdentity g c c v i]
      rfl
  · refine ⟨?_, ?_, ?_, ?_, ?_, ?_, ?_, ?_⟩
    · show (appendMergeG (appendMergeG g _ _) _ _).ops.length = _
      rw [appendMergeG_ops_length, appendMergeG_ops_length]
    · show (getOp (appendMergeG (appendMergeG g _ _) _ _) g.ops.length).opType = _
      rw [getOp_append_lt _ _ _ _ (by rw [appendMergeG_ops_length]; omega)]
      rw [getOp_append_self]
    · show (getOp (appendMergeG (appendMergeG g _ _) _ _) g.ops.length).inputs = _
      rw [getOp_append_lt _ _ _ _ (by rw [appendMergeG_ops_length]; omega)]
      rw [getOp_append_self]
    · show (getOp (appendMergeG (appendMergeG g _ _) _ _) (g.ops.length + 1)).opType = _
      rw [show g.ops.length + 1 = (appendMergeG g _ _).ops.length from
        (appendMergeG_ops_length g _ _).symm]
      rw [getOp_append_self]
    · show (getOp (appendMergeG (appendMergeG g _ _) _ _) (g.ops.length + 1)).inputs = _
      rw [show g.ops.length + 1 = (appendMergeG g _ _).ops.length from
        (appendMergeG_ops_length g _ _).symm]
      rw [getOp_append_self]
    · exact mem_addReturned_self _ _
    · apply mem_addReturned_of_mem
      rw [← mkIdentity_snd_of_mkIdentity g c c v i]
      exact mem_addReturned_self _ _
    · show RValue.sparse (mkIdentity (mkIdentity g c v).1 c i).2
          (mkIdentity g c v).2 sh = _
      rw [mkIdentity_snd_of_mkIdentity g c c v i]
      rfl
  · refine ⟨?_, ?_, ?_, ?_, rfl⟩
    · show (appendMergeG g _ _).ops.length = _
      rw [appendMergeG_ops_length]
    · show (getOp (appendMergeG g _ _) g.ops.length).opType = _
      rw [getOp_append_self]
    · show (getOp (appendMergeG g _ _) g.ops.length).inputs = _
      rw [getOp_append_self]
    · exact mem_addReturned_self _ _

theorem alookup_cons_self {β : Type} (l : List (Option Nat × β)) (k : Option Nat) (v : β) :
    alookup ((k, v) :: l) k = some v := by
  show (if k = k then some v else alookup l k) = some v
  rw [if_pos rfl]

theorem alookup_cons_ne {β : Type} (l : List (Option Nat × β)) (k k' : Option Nat) (v : β)
    (h : k ≠ k') : alookup ((k, v) :: l) k' = alookup l k' := by
  show (if k = k' then some v else alookup l k') = alookup l k'
  rw [if_neg h]

theorem repointInputs_cons (i t : Nat) (ts : List Nat) (last : List (Option Nat × Nat)) :
    repointInputs i last (t :: ts) =
      repointInputs i
        (if (alookup last (some t)).isSome then (some t, i) :: last else last) ts := rfl

theorem repointInputs_char (i : Nat) :
    ∀ (inps : List Nat) (last : List (Option Nat × Nat)) (k : Option Nat),
      (((∃ t ∈ inps, k = some t) ∧ (alookup last k).isSome) →
          alookup (repointInputs i last inps) k = some i) ∧
      ((¬ ((∃ t ∈ inps, k = some t) ∧ (alookup last k).isSome)) →
          alookup (repointInputs i last inps) k = alookup last k) := by
  intro inps
  induction inps with
  | nil =>
    intro last k
    constructor
    · rintro ⟨⟨t, ht, _⟩, _⟩
      cases ht
    · intro _
      rfl
  | cons t ts ih =>
    intro last k
    rw [repointInputs_cons]
    by_cases hk : k = some t
    · subst hk
      by_cases hsome : (alookup last (some t)).isSome
      · rw [if_pos hsome]
        have hl1 : alookup ((some t, i) :: last) (some t) = some i :=
          alookup_cons_self last (some t) i
        constructor
        · intro _
          by_cases hcond : (∃ t' ∈ ts, (some t : Option Nat) = some t') ∧
              (alookup ((some t, i) :: last) (some t)).isSome
          · exact (ih _ (some t)).1 hcond
          · rw [(ih _ (some t)).2 hcond, hl1]
        · intro hncond
          exfalso
          exact hncond ⟨⟨t, List.mem_cons_self _ _, rfl⟩, hsome⟩
      · rw [if_neg hsome]
        constructor
        · rintro ⟨_, hs⟩
          exact absurd hs hsome
        · intro _
          apply (ih last (some t)).2
          rintro ⟨_, hs⟩
          exact absurd hs hsome
    · have hl1 : ∀ l', (if (alookup last (some t)).isSome then (some t, i) :: last
          else last) = l' → alookup l' k = alookup last k := by
        intro l' hl'
        subst hl'
        split
        · exact alookup_cons_ne last (some t) k i (fun h => hk h.symm)
        · rfl
      have hlk : alookup (if (alookup last (some t)).isSome then (some t, i) :: last
          else last) k = alookup last k := hl1 _ rfl
      constructor
      · rintro ⟨⟨t', ht', hkt'⟩, hs⟩
        rcases List.mem_cons.mp ht' with rfl | ht2
        · exact absurd hkt' hk
        · apply (ih _ k).1
          refine ⟨⟨t', ht2, hkt'⟩, ?_⟩
          rw [hlk]
          exact hs
      · intro hncond
        rw [(ih _ k).2, hlk]
        rintro ⟨⟨t', ht2, hkt'⟩, hs⟩
        rw [hlk] at hs
        exact hncond ⟨⟨t', List.mem_cons_of_mem _ ht2, hkt'⟩, hs⟩

theorem repointInputs_isSome (i : Nat) :
    ∀ (inps : List Nat) (last : List (Option Nat × Nat)) (k : Option Nat),
      (alookup (repointInputs i last inps) k).isSome = (alookup last k).isSome := by
  intro inps
  induction inps with
  | nil => intro last k; rfl
  | cons t ts ih =>
    intro last k
    rw [repointInputs_cons, ih]
    by_cases hsome : (alookup last (some t)).isSome
    · rw [if_pos hsome]
      by_cases hk : (some t : Option Nat) = k
      · subst hk
        rw [alookup_cons_self]
        exact hsome.symm ▸ rfl
      · rw [alookup_cons_ne last _ _ _ hk]
    · rw [if_neg hsome]

theorem absorbOne_lastUser (i : Nat) (st : EngineState) (o : Nat) :
    (absorbOne i st o).lastUser =
      repointInputs i st.lastUser (getOp st.g o).inputs := by
  simp only [absorbOne]
  have hcore : opCore (getOp (addControlInput st.g i o) o) = opCore (getOp st.g o) :=
    opCore_addControlInput st.g i o o
  rw [inputs_of_coreEq hcore]

theorem absorbFold_char (i : Nat) :
    ∀ (l : List Nat) (st : EngineState), i < st.g.ops.length →
      ((l.foldl (absorbOne i) st).g.ops.length = st.g.ops.length ∧
       (l.foldl (absorbOne i) st).g.tensors = st.g.tensors ∧
       (∀ j, opCore (getOp (l.foldl (absorbOne i) st).g j) = opCore (getOp st.g j)) ∧
       (l.foldl (absorbOne i) st).mustRun = st.mustRun ∧
       (l.foldl (absorbOne i) st).mergeFor = st.mergeFor) ∧
      (∀ x, x ≠ i → ctrl (l.foldl (absorbOne i) st).g x = ctrl st.g x) ∧
      (∀ c, c ∈ ctrl (l.foldl (absorbOne i) st).g i ↔ c ∈ ctrl st.g i ∨ c ∈ l) ∧
      (∀ k : Option Nat,
        (alookup ((l.foldl (absorbOne i) st).lastUser) k).isSome
            = (alookup st.lastUser k).isSome ∧
        (((∃ o ∈ l, ∃ t ∈ (getOp st.g o).inputs, k = some t) ∧
            (alookup st.lastUser k).isSome) →
          alookup ((l.foldl (absorbOne i) st).lastUser) k = some i) ∧
        ((¬ ((∃ o ∈ l, ∃ t ∈ (getOp st.g o).inputs, k = some t) ∧
            (alookup st.lastUser k).isSome)) →
          alookup ((l.foldl (absorbOne i) st).lastUser) k = alookup st.lastUser k)) := by
  intro l
  induction l with
  | nil =>
    intro st hi
    refine ⟨⟨rfl, rfl, fun j => rfl, rfl, rfl⟩, fun x _ => rfl, fun c => ?_, fun k => ?_⟩
    · simp
    · refine ⟨rfl, ?_, fun _ => rfl⟩
      rintro ⟨⟨o, ho, _⟩, _⟩
      cases ho
  | cons o os ih =>
    intro st hi
    show _ ∧ _ ∧ _ ∧ _
    have hstep : os.foldl (absorbOne i) (absorbOne i st o) = (o :: os).foldl (absorbOne i) st :=
      rfl
    have hone_len : (absorbOne i st o).g.ops.length = st.g.ops.length := by
      simp only [absorbOne]
      exact addControlInput_ops_length st.g i o
    have hone_ten : (absorbOne i st o).g.tensors = st.g.tensors := rfl
    have hone_core : ∀ j, opCore (getOp (absorbOne i st o).g j) = opCore (getOp st.g j) :=
      fun j => opCore_addControlInput st.g i o j
    have hone_mr : (absorbOne i st o).mustRun = st.mustRun := rfl
    have hone_mf : (absorbOne i st o).mergeFor = st.mergeFor := rfl
    have hone_ctrl_ne : ∀ x, x ≠ i → ctrl (absorbOne i st o).g x = ctrl st.g x :=
      fun x hx => ctrl_addControlInput_ne st.g i o x hx
    have hone_ctrl_i : ∀ c, c ∈ ctrl (absorbOne i st o).g i ↔ c ∈ ctrl st.g i ∨ c = o := by
      intro c
      show c ∈ ctrl (addControlInput st.g i o) i ↔ _
      rw [mem_ctrl_addControlInput_iff]
      constructor
      · rintro (h | ⟨_, rfl, _⟩)
        · exact Or.inl h
        · exact Or.inr rfl
      · rintro (h | rfl)
        · exact Or.inl h
        · exact Or.inr ⟨rfl, rfl, hi⟩
    have hone_lu : (absorbOne i st o).lastUser =
        repointInputs i st.lastUser (getOp st.g o).inputs := absorbOne_lastUser i st o
    have hi1 : i < (absorbOne i st o).g.ops.length := by rw [hone_len]; exact hi
    obtain ⟨⟨ihlen, ihten, ihcore, ihmr, ihmf⟩, ihctrlne, ihctrli, ihlu⟩ :=
      ih (absorbOne i st o) hi1
    rw [hstep] at ihlen ihten ihcore ihmr ihmf ihctrlne ihctrli ihlu
    refine ⟨⟨?_, ?_, ?_, ?_, ?_⟩, ?_, ?_, ?_⟩
    · rw [ihlen, hone_len]
    · rw [ihten, hone_ten]
    · intro j
      rw [ihcore j, hone_core j]
    · rw [ihmr, hone_mr]
    · rw [ihmf, hone_mf]
    · intro x hx
      rw [ihctrlne x hx, hone_ctrl_ne x hx]
    · intro c
      rw [ihctrli c]
      rw [hone_ctrl_i c]
      constructor
      · rintro ((h | rfl) | h)
        · exact Or.inl h
        · exact Or.inr (List.mem_cons_self _ _)
        · exact Or.inr (List.mem_cons_of_mem _ h)
      · rintro (h | h)
        · exact Or.inl (Or.inl h)
        · rcases List.mem_cons.mp h with rfl | h2
          · exact Or.inl (Or.inr rfl)
          · exact Or.inr h2
    · intro k
      obtain ⟨ihsome, ihrep, ihkeep⟩ := ihlu k
      have hcores : ∀ o', (getOp (absorbOne i st o).g o').inputs = (getOp st.g o').inputs :=
        fun o' => inputs_of_coreEq (hone_core o')
      have hone_some : (alookup (absorbOne i st o).lastUser k).isSome
          = (alookup st.lastUser k).isSome := by
        rw [hone_lu, repointInputs_isSome]
      refine ⟨?_, ?_, ?_⟩
      · rw [ihsome, hone_some]
      · rintro ⟨⟨o', ho', t, ht, hkt⟩, hs⟩
        rcases List.mem_cons.mp ho' with rfl | ho2
        · -- k is an input of the first absorbed op: repointed immediately and
          -- the later iterations keep the repointed value or re-repoint to i.
          by_cases hcond2 : (∃ o2 ∈ os, ∃ t2 ∈ (getOp (absorbOne i st o').g o2).inputs,
              k = some t2) ∧ (alookup (absorbOne i st o').lastUser k).isSome
          · exact ihrep hcond2
          · rw [ihkeep hcond2, hone_lu]
            exact (repointInputs_char i _ _ k).1 ⟨⟨t, ht, hkt⟩, hs⟩
        · apply ihrep
          refine ⟨⟨o', ho2, t, ?_, hkt⟩, ?_⟩
          · rw [hcores o']
            exact ht
          · rw [hone_some]
            exact hs
      · intro hncond
        have hnc1 : ¬ ((∃ t ∈ (getOp st.g o).inputs, k = some t) ∧
            (alookup st.lastUser k).isSome) := by
          rintro ⟨⟨t, ht, hkt⟩, hs⟩
          exact hncond ⟨⟨o, List.mem_cons_self _ _, t, ht, hkt⟩, hs⟩
        have hone_keep : alookup (absorbOne i st o).lastUser k = alookup st.lastUser k := by
          rw [hone_lu]
          exact (repointInputs_char i _ _ k).2 hnc1
        rw [ihkeep, hone_keep]
        rintro ⟨⟨o2, ho2, t2, ht2, hkt2⟩, hs2⟩
        apply hncond
        refine ⟨⟨o2, List.mem_cons_of_mem _ ho2, t2, ?_, hkt2⟩, ?_⟩
        · rw [← hcores o2]
          exact ht2
        · rw [← hone_some]
          exact hs2

/-- C3 (counterexample): at the concrete graph `c3G`, when the engine reaches
the natural Merge (op 3), `must_run` is `{1}` and the resource tensor 0 is
last-used by op 2 — an operation that is *not* absorbed.  The claim's
"`last_user` is repointed ... exactly for the resources previously last-used
by an absorbed operation" therefore predicts that `last_user[0]` stays at 2;
the code nevertheless repoints it to the merge (op 3), because tensor 0
occurs among the *inputs* of the absorbed op 1. -/
theorem claim_C3_counterexample :
    runEngine c3G 0 = stepOp (runFrom (initState c3G) 0 3) 3 ∧
    (getOp c3G 3).opType = "Merge" ∧
    (runFrom (initState c3G) 0 3).mustRun = [1] ∧
    alookup (runFrom (initState c3G) 0 3).lastUser (some 0) = some 2 ∧
    (2 : Nat) ∉ (runFrom (initState c3G) 0 3).mustRun ∧
    alookup (runEngine c3G 0).lastUser (some 0) = some 3 := by
  decide

/-- C3 (amended claim theorem): when the engine encounters a Merge operation
of the processed slice (not skipped as part of a while loop), with `must_run`
as it stands after the merge's own classification (`mustRunPre`):
every operation currently in `must_run` acquires a control edge into the
merge and nothing else (the merge's control inputs grow by exactly the
absorbed set, no other op's control inputs change, no operation is added to
the graph); `last_user` is repointed to the merge exactly for the tracked
keys that occur among the inputs of an absorbed operation; `must_run` is
reset to the singleton of the merge; and the merge is not additionally
processed as a plain resource consumer (`merge_for_resource` is untouched
and `last_user` changes only by the stated repointing). -/
theorem claim_C3_amended (st : EngineState) (i : Nat)
    (hmerge : (getOp st.g i).opType = "Merge")
    (hwhile : isInWhileLoop st.g (getOp st.g i).ctx = false)
    (hi : i < st.g.ops.length) :
    (stepOp st i).mustRun = [i] ∧
    (∀ c, c ∈ ctrl (stepOp st i).g i ↔ c ∈ ctrl st.g i ∨ c ∈ mustRunPre st i) ∧
    (∀ x, x ≠ i → ctrl (stepOp st i).g x = ctrl st.g x) ∧
    (stepOp st i).g.ops.length = st.g.ops.length ∧
    (stepOp st i).mergeFor = st.mergeFor ∧
    (∀ k : Option Nat,
      (((∃ o ∈ mustRunPre st i, ∃ t ∈ (getOp st.g o).inputs, k = some t) ∧
          (alookup st.lastUser k).isSome) →
        alookup (stepOp st i).lastUser k = some i) ∧
      ((¬ ((∃ o ∈ mustRunPre st i, ∃ t ∈ (getOp st.g o).inputs, k = some t) ∧
          (alookup st.lastUser k).isSome)) →
        alookup (stepOp st i).lastUser k = alookup st.lastUser k)) := by
  have hsw : ¬ ((getOp st.g i).opType = "Switch" ∧
      firstInputResource st.g (getOp st.g i) = true) := by
    rintro ⟨h1, _⟩
    rw [hmerge] at h1
    exact absurd h1 (by decide)
  simp only [stepOp]
  rw [if_neg (show ¬ isInWhileLoop st.g (getOp st.g i).ctx = true by
    rw [hwhile]; exact Bool.false_ne_true)]
  rw [if_neg hsw, if_pos hmerge]
  by_cases hcl : (!(st.g.registeredOps.contains (getOp st.g i).opType)
      || opIsStateful (getOp st.g i)) = true
  · rw [if_pos hcl]
    have hmr : mustRunPre st i = insertIfAbsent st.mustRun i := by
      unfold mustRunPre
      rw [if_pos hcl]
    obtain ⟨⟨hlen, _, _, _, hmf⟩, hctrlne, hctrli, hlu⟩ :=
      absorbFold_char i (insertIfAbsent st.mustRun i)
        { st with mustRun := insertIfAbsent st.mustRun i } hi
    refine ⟨rfl, ?_, ?_, ?_, ?_, ?_⟩
    · intro c
      rw [hmr]
      exact hctrli c
    · intro x hx
      exact hctrlne x hx
    · exact hlen
    · exact hmf
    · intro k
      obtain ⟨_, hrep, hkeep⟩ := hlu k
      rw [hmr]
      exact ⟨hrep, hkeep⟩
  · rw [if_neg hcl]
    have hmr : mustRunPre st i = st.mustRun := by
      unfold mustRunPre
      rw [if_neg hcl]
    obtain ⟨⟨hlen, _, _, _, hmf⟩, hctrlne, hctrli, hlu⟩ :=
      absorbFold_char i st.mustRun st hi
    refine ⟨rfl, ?_, ?_, ?_, ?_, ?_⟩
    · intro c
      rw [hmr]
      exact hctrli c
    · intro x hx
      exact hctrlne x hx
    · exact hlen
    · exact hmf
    · intro k
      obtain ⟨_, hrep, hkeep⟩ := hlu k
      rw [hmr]
      exact ⟨hrep, hkeep⟩

/-- C3 witness: the amended theorem applied to the engine state just before
the Merge of `c3G` is processed. -/
theorem claim_C3_amended_witness :
    (stepOp (runFrom (initState c3G) 0 3) 3).mustRun = [3] :=
  (claim_C3_amended (runFrom (initState c3G) 0 3) 3 (by decide) (by decide) (by decide)).1

theorem procFold_no_resource (j : Nat) (c : Option Nat) :
    ∀ (l : List Nat) (acc : EngineState × List Nat × List Nat),
      (∀ t ∈ l, (getTensor acc.1.g t).dtype ≠ DType.resource) →
      l.foldl (procOneInput j c) acc = acc := by
  intro l
  induction l with
  | nil => intro acc _; rfl
  | cons t ts ih =>
    intro acc h
    have h1 : procOneInput j c acc t = acc := by
      simp only [procOneInput]
      rw [if_pos (h t (List.mem_cons_self _ _))]
    show ts.foldl (procOneInput j c) (procOneInput j c acc t) = acc
    rw [h1]
    exact ih acc (fun t' ht' => h t' (List.mem_cons_of_mem _ ht'))

theorem stepOp_no_resource (st : EngineState) (j : Nat)
    (hin : ∀ t ∈ (getOp st.g j).inputs, (getTensor st.g t).dtype ≠ DType.resource)
    (hnm : (getOp st.g j).opType ≠ "Merge")
    (hns : ¬ (opIsStateful (getOp st.g j) = true ∧ (getOp st.g j).ctx = none)) :
    (stepOp st j).g = st.g ∧ (stepOp st j).lastUser = st.lastUser ∧
    (stepOp st j).mergeFor = st.mergeFor := by
  simp only [stepOp]
  by_cases hwl : isInWhileLoop st.g (getOp st.g j).ctx = true
  · rw [if_pos hwl]
    exact ⟨rfl, rfl, rfl⟩
  · rw [if_neg hwl]
    by_cases hcl : (!(st.g.registeredOps.contains (getOp st.g j).opType)
        || opIsStateful (getOp st.g j)) = true
    · rw [if_pos hcl]
      by_cases hswg : ((getOp st.g j).opType = "Switch" ∧
          firstInputResource st.g (getOp st.g j) = true)
      · rw [if_pos hswg]
        exact ⟨rfl, rfl, rfl⟩
      · rw [if_neg hswg, if_neg hnm]
        rw [procFold_no_resource j (getOp st.g j).ctx (getOp st.g j).inputs _ hin]
        rw [if_neg (show ¬ (opIsStateful (getOp st.g j) = true ∧ ([] : List Nat) = [] ∧
            (getOp st.g j).ctx = none) from fun h => hns ⟨h.1, h.2.2⟩)]
        exact ⟨rfl, rfl, rfl⟩
    · rw [if_neg hcl]
      by_cases hswg : ((getOp st.g j).opType = "Switch" ∧
          firstInputResource st.g (getOp st.g j) = true)
      · rw [if_pos hswg]
        exact ⟨rfl, rfl, rfl⟩
      · rw [if_neg hswg, if_neg hnm]
        rw [procFold_no_resource j (getOp st.g j).ctx (getOp st.g j).inputs _ hin]
        rw [if_neg (show ¬ (opIsStateful (getOp st.g j) = true ∧ ([] : List Nat) = [] ∧
            (getOp st.g j).ctx = none) from fun h => hns ⟨h.1, h.2.2⟩)]
        exact ⟨rfl, rfl, rfl⟩

theorem runFrom_no_resource : ∀ (k p : Nat) (st : EngineState),
    (∀ j, p ≤ j → j < p + k →
      (∀ t ∈ (getOp st.g j).inputs, (getTensor st.g t).dtype ≠ DType.resource) ∧
      (getOp st.g j).opType ≠ "Merge" ∧
      ¬ (opIsStateful (getOp st.g j) = true ∧ (getOp st.g j).ctx = none)) →
    (runFrom st p k).g = st.g ∧ (runFrom st p k).lastUser = st.lastUser ∧
    (runFrom st p k).mergeFor = st.mergeFor := by
  intro k
  induction k with
  | zero => intro p st _; exact ⟨rfl, rfl, rfl⟩
  | succ m ih =>
    intro p st h
    obtain ⟨hp1, hp2, hp3⟩ := h p (Nat.le_refl p) (by omega)
    obtain ⟨hg, hlu, hmf⟩ := stepOp_no_resource st p hp1 hp2 hp3
    show (runFrom (stepOp st p) (p + 1) m).g = st.g ∧
      (runFrom (stepOp st p) (p + 1) m).lastUser = st.lastUser ∧
      (runFrom (stepOp st p) (p + 1) m).mergeFor = st.mergeFor
    have ih2 := ih (p + 1) (stepOp st p) (by
      intro j hj1 hj2
      rw [hg]
      exact h j (by omega) (by omega))
    refine ⟨?_, ?_, ?_⟩
    · rw [ih2.1, hg]
    · rw [ih2.2.1, hlu]
    · rw [ih2.2.2, hmf]

theorem restoreFlag_ops (g : Graph) : (restoreFlag g).ops = g.ops := by
  unfold restoreFlag
  cases g.outerAddControlDependencies <;> rfl

theorem restoreFlag_tensors (g : Graph) : (restoreFlag g).tensors = g.tensors := by
  unfold restoreFlag
  cases g.outerAddControlDependencies <;> rfl

theorem getOp_restoreFlag (g : Graph) (j : Nat) : getOp (restoreFlag g) j = getOp g j := by
  unfold getOp
  rw [restoreFlag_ops]

theorem getTensor_restoreFlag (g : Graph) (t : Nat) :
    getTensor (restoreFlag g) t = getTensor g t := by
  unfold getTensor
  rw [restoreFlag_tensors]

theorem getTensor_addControlInputs (g : Graph) (a : Nat) (l : List Nat) (t : Nat) :
    getTensor (addControlInputs g a l) t = getTensor g t := by
  unfold getTensor
  rw [addControlInputs_tensors]

theorem anchorReturns_cons (g : Graph) (mr : List Nat) (r : Nat) (rs : List Nat) :
    anchorReturns g mr (r :: rs) =
      anchorReturns
        (if mr.isEmpty then g
         else addControlInputs g (getTensor g r).producer
           (mr.filter (fun o => decide ((getOp g o).ctx
             = (getOp g (getTensor g r).producer).ctx)))) mr rs := rfl

theorem anchorReturns_ctrl_ne (mr : List Nat) :
    ∀ (ret : List Nat) (g : Graph) (x : Nat),
      (∀ r ∈ ret, (getTensor g r).producer ≠ x) →
      ctrl (anchorReturns g mr ret) x = ctrl g x := by
  intro ret
  induction ret with
  | nil => intro g x _; rfl
  | cons r rs ih =>
    intro g x h
    rw [anchorReturns_cons]
    by_cases hemp : mr.isEmpty
    · rw [if_pos hemp]
      exact ih g x (fun r' hr' => h r' (List.mem_cons_of_mem _ hr'))
    · rw [if_neg hemp]
      have hten : ∀ t, getTensor (addControlInputs g (getTensor g r).producer
          (mr.filter (fun o => decide ((getOp g o).ctx
            = (getOp g (getTensor g r).producer).ctx)))) t = getTensor g t :=
        fun t => getTensor_addControlInputs g _ _ t
      rw [ih _ x (fun r' hr' => by
        rw [hten r']
        exact h r' (List.mem_cons_of_mem _ hr'))]
      exact ctrl_addControlInputs_ne g _ _ x
        (fun hx => h r (List.mem_cons_self _ _) hx.symm)

/-- C4 (counterexample): `c4G` contains no resource-typed tensor at all and no
returned tensors are declared, yet the pass adds a control edge from op 0 to
op 1 (the sentinel chaining of context-less stateful ops) and control edges
from ops 0 and 1 into op 2 (natural-Merge absorption) — none of which anchor
a declared return value. -/
theorem claim_C4_counterexample :
    (∀ ti ∈ c4G.tensors, ti.dtype ≠ DType.resource) ∧
    (acdExit false ⟨[], [], some 0, 0⟩ c4G).isOk = true ∧
    0 ∈ ctrl (exitGraphD (acdExit false ⟨[], [], some 0, 0⟩ c4G) c4G) 1 ∧
    0 ∈ ctrl (exitGraphD (acdExit false ⟨[], [], some 0, 0⟩ c4G) c4G) 2 ∧
    1 ∈ ctrl (exitGraphD (acdExit false ⟨[], [], some 0, 0⟩ c4G) c4G) 2 ∧
    ctrl c4G 1 = [] ∧ ctrl c4G 2 = [] := by
  decide

/-- C4 (amended claim theorem): for an operation slice in which no operation
has a resource-typed input, none is a Merge, and none is a context-less
stateful (non-exempt) op, closing the region adds no control edges to any
operation other than the producers of declared return values (the anchoring
edges). -/
theorem claim_C4_amended (acd : ACDState) (g : Graph)
    (hgid : acd.graphId = some g.gid)
    (hops : ∀ j, acd.nOperations ≤ j → j < g.ops.length →
      (∀ t ∈ (getOp g j).inputs, (getTensor g t).dtype ≠ DType.resource) ∧
      (getOp g j).opType ≠ "Merge" ∧
      ¬ (opIsStateful (getOp g j) = true ∧ (getOp g j).ctx = none)) :
    ∃ g2 acd2, acdExit false acd g = Except.ok (g2, acd2) ∧
      ∀ x, (∀ r ∈ acd.returnedTensors, (getTensor g r).producer ≠ x) →
        ctrl g2 x = ctrl g x := by
  unfold acdExit
  rw [if_neg (show ¬ (false = true) by decide), if_pos hgid]
  refine ⟨_, _, rfl, ?_⟩
  intro x hx
  have hrun := runFrom_no_resource (g.ops.length - acd.nOperations) acd.nOperations
    (initState (restoreFlag g)) (by
      intro j hj1 hj2
      have hjlen : j < g.ops.length := by omega
      have hops2 := hops j hj1 hjlen
      show (∀ t ∈ (getOp (restoreFlag g) j).inputs,
          (getTensor (restoreFlag g) t).dtype ≠ DType.resource) ∧
        (getOp (restoreFlag g) j).opType ≠ "Merge" ∧
        ¬ (opIsStateful (getOp (restoreFlag g) j) = true ∧
          (getOp (restoreFlag g) j).ctx = none)
      rw [getOp_restoreFlag]
      refine ⟨fun t ht => ?_, hops2.2.1, hops2.2.2⟩
      show ¬ (getTensor (restoreFlag g) t).dtype = DType.resource
      rw [getTensor_restoreFlag]
      exact hops2.1 t ht)
  have hlen : (restoreFlag g).ops.length = g.ops.length := by rw [restoreFlag_ops]
  have hgeq : (runEngine (restoreFlag g) acd.nOperations).g = restoreFlag g := by
    unfold runEngine
    rw [hlen]
    exact hrun.1
  rw [hgeq]
  rw [anchorReturns_ctrl_ne _ acd.returnedTensors (restoreFlag g) x (fun r hr => by
    rw [getTensor_restoreFlag]
    exact hx r hr)]
  show ctrl (restoreFlag g) x = ctrl g x
  unfold ctrl
  rw [getOp_restoreFlag]

/-- C4 witness: the amended theorem applied to `c4WitnessG` with one returned
tensor. -/
theorem claim_C4_amended_witness :
    ∃ g2 acd2, acdExit false ⟨[2], [], some 3, 0⟩ c4WitnessG = Except.ok (g2, acd2) ∧
      ∀ x, (∀ r ∈ ([2] : List Nat), (getTensor c4WitnessG r).producer ≠ x) →
        ctrl g2 x = ctrl c4WitnessG x :=
  claim_C4_amended ⟨[2], [], some 3, 0⟩ c4WitnessG (by decide) (by
    intro j hj1 hj2
    have h3 : j < 3 := hj2
    interval_cases j <;> exact (by decide))

theorem opCore_anchorReturns (mr : List Nat) :
    ∀ (ret : List Nat) (g : Graph) (x : Nat),
      opCore (getOp (anchorReturns g mr ret) x) = opCore (getOp g x) := by
  intro ret
  induction ret with
  | nil => intro g x; rfl
  | cons r rs ih =>
    intro g x
    rw [anchorReturns_cons]
    by_cases hemp : mr.isEmpty
    · rw [if_pos hemp]
      exact ih g x
    · rw [if_neg hemp]
      rw [ih _ x, opCore_addControlInputs]

theorem anchorReturns_tensors (mr : List Nat) :
    ∀ (ret : List Nat) (g : Graph), (anchorReturns g mr ret).tensors = g.tensors := by
  intro ret
  induction ret with
  | nil => intro g; rfl
  | cons r rs ih =>
    intro g
    rw [anchorReturns_cons]
    by_cases hemp : mr.isEmpty
    · rw [if_pos hemp]
      exact ih g
    · rw [if_neg hemp]
      rw [ih _, addControlInputs_tensors]

theorem anchorReturns_ops_length (mr : List Nat) :
    ∀ (ret : List Nat) (g : Graph), (anchorReturns g mr ret).ops.length = g.ops.length := by
  intro ret
  induction ret with
  | nil => intro g; rfl
  | cons r rs ih =>
    intro g
    rw [anchorReturns_cons]
    by_cases hemp : mr.isEmpty
    · rw [if_pos hemp]
      exact ih g
    · rw [if_neg hemp]
      rw [ih _, addControlInputs_ops_length]

theorem anchorReturns_ctrl_mono (mr : List Nat) :
    ∀ (ret : List Nat) (g : Graph) (x b : Nat),
      b ∈ ctrl g x → b ∈ ctrl (anchorReturns g mr ret) x := by
  intro ret
  induction ret with
  | nil => intro g x b h; exact h
  | cons r rs ih =>
    intro g x b h
    rw [anchorReturns_cons]
    by_cases hemp : mr.isEmpty
    · rw [if_pos hemp]
      exact ih g x b h
    · rw [if_neg hemp]
      apply ih
      rw [mem_ctrl_addControlInputs_iff]
      exact Or.inl h

theorem anchorReturns_mem (mr : List Nat) :
    ∀ (ret : List Nat) (g : Graph) (r : Nat), r ∈ ret →
      ∀ o ∈ mr, (getOp g o).ctx = (getOp g (getTensor g r).producer).ctx →
        (getTensor g r).producer < g.ops.length →
        o ∈ ctrl (anchorReturns g mr ret) (getTensor g r).producer := by
  intro ret
  induction ret with
  | nil =>
    intro g r hr
    cases hr
  | cons r' rs ih =>
    intro g r hr o ho hctx hlt
    rw [anchorReturns_cons]
    have hemp : ¬ mr.isEmpty := by
      cases mr with
      | nil => cases ho
      | cons a as => intro h; cases h
    rw [if_neg hemp]
    rcases List.mem_cons.mp hr with rfl | hr2
    · -- the tensor handled at this step: the edge is added now and survives.
      apply anchorReturns_ctrl_mono
      rw [mem_ctrl_addControlInputs_iff]
      refine Or.inr ⟨rfl, ?_, hlt⟩
      rw [List.mem_filter]
      exact ⟨ho, by rw [decide_eq_true_iff]; exact hctx⟩
    · -- handled later: transport the facts through this step's edge adds.
      have hten : ∀ u, getTensor (addControlInputs g (getTensor g r').producer
          (mr.filter (fun o' => decide ((getOp g o').ctx
            = (getOp g (getTensor g r').producer).ctx)))) u = getTensor g u :=
        fun u => getTensor_addControlInputs g _ _ u
      have hcore : ∀ x, opCore (getOp (addControlInputs g (getTensor g r').producer
          (mr.filter (fun o' => decide ((getOp g o').ctx
            = (getOp g (getTensor g r').producer).ctx)))) x) = opCore (getOp g x) :=
        fun x => opCore_addControlInputs g _ _ x
      have hres := ih _ r hr2 o ho (by
        rw [hten r, ctx_of_coreEq (hcore o), ctx_of_coreEq (hcore _)]
        exact hctx) (by
        rw [hten r, addControlInputs_ops_length]
        exact hlt)
      rw [hten r] at hres
      exact hres

theorem getTensor_append_one (g : Graph) (mo : Operation) (ti : TensorInfo) :
    getTensor (appendMergeG g mo [ti]) g.tensors.length = ti := by
  show (g.tensors ++ [ti]).getD g.tensors.length defaultTensor = ti
  rw [getD_append_ge _ _ _ _ (Nat.lt_irrefl _), Nat.sub_self]
  rfl

/-- C9 (claim theorem): `mark_as_return` on a plain tensor yields a fresh
identity-wrapped tensor whose output feeds no data edge into any operation
of the graph (in particular into no stateful producer), and at region close
the identity operation (handle `g.ops.length`) receives a control edge from
every operation of the persistent must-run set whose control-flow context is
identical to the identity's context. -/
theorem claim_C9_plain_return_anchoring (g : Graph) (acd : ACDState) (c : Option Nat)
    (t : Nat) (hWF : inputsBounded g) (ht : t < g.tensors.length)
    (hgid : acd.graphId = some g.gid) :
    (∀ j, (getOp (markAsReturn acd g c (.plain t)).2.1 j).isStateful = true →
      g.tensors.length ∉ (getOp (markAsReturn acd g c (.plain t)).2.1 j).inputs) ∧
    (∃ g2 acd2,
      acdExit false (markAsReturn acd g c (.plain t)).1 (markAsReturn acd g c (.plain t)).2.1
        = Except.ok (g2, acd2) ∧
      ∀ o ∈ acd2.opsWhichMustRun,
        (getOp g2 o).ctx = (getOp g2 g.ops.length).ctx → o ∈ ctrl g2 g.ops.length) := by
  constructor
  · intro j hst hmem
    by_cases hj : j < g.ops.length
    · have heq : getOp (markAsReturn acd g c (.plain t)).2.1 j = getOp g j :=
        getOp_append_lt g _ _ j hj
      rw [heq] at hmem
      have := hWF j hj _ hmem
      exact absurd this (Nat.lt_irrefl _)
    · by_cases hj2 : j = g.ops.length
      · subst hj2
        have heq : getOp (markAsReturn acd g c (RValue.plain t)).2.1 g.ops.length
            = { opType := "Identity", inputs := [t], outputs := [g.tensors.length],
                ctx := c, isStateful := false, controlInputs := [] } :=
          getOp_append_self g _ _
        rw [heq] at hst
        cases hst
      · have heq : getOp (markAsReturn acd g c (.plain t)).2.1 j = defaultOp :=
          getOp_append_gt g _ _ j
            (Nat.lt_of_le_of_ne (Nat.le_of_not_lt hj) (fun h => hj2 h.symm))
        rw [heq] at hst
        cases hst
  · unfold acdExit
    rw [if_neg (show ¬ (false = true) by decide)]
    rw [if_pos (show (markAsReturn acd g c (.plain t)).1.graphId
        = some (markAsReturn acd g c (.plain t)).2.1.gid from hgid)]
    refine ⟨_, _, rfl, ?_⟩
    intro o ho hctx
    have hext : GExt (initState (restoreFlag (markAsReturn acd g c (.plain t)).2.1))
        (runEngine (restoreFlag (markAsReturn acd g c (.plain t)).2.1)
          (markAsReturn acd g c (.plain t)).1.nOperations) :=
      gext_runFrom _ _ _
    have hlen1 : (restoreFlag (markAsReturn acd g c (.plain t)).2.1).ops.length
        = g.ops.length + 1 := by
      rw [restoreFlag_ops]
      exact appendMergeG_ops_length g _ _
    have htlen1 : g.tensors.length
        < (restoreFlag (markAsReturn acd g c (.plain t)).2.1).tensors.length := by
      rw [restoreFlag_tensors]
      have h2 : (markAsReturn acd g c (RValue.plain t)).2.1.tensors.length
          = g.tensors.length + 1 := appendMergeG_tensors_length g _ _
      omega
    have hprod : getTensor (runEngine (restoreFlag (markAsReturn acd g c (.plain t)).2.1)
        (markAsReturn acd g c (.plain t)).1.nOperations).g g.tensors.length
        = { producer := g.ops.length, dtype := (getTensor g t).dtype } := by
      rw [hext.tens g.tensors.length htlen1]
      show getTensor (restoreFlag (markAsReturn acd g c (.plain t)).2.1) g.tensors.length = _
      rw [getTensor_restoreFlag]
      exact getTensor_append_one g _ _
    have hplt : g.ops.length < (runEngine (restoreFlag (markAsReturn acd g c (.plain t)).2.1)
        (markAsReturn acd g c (.plain t)).1.nOperations).g.ops.length := by
      have := hext.opsLen
      rw [show (initState (restoreFlag (markAsReturn acd g c (.plain t)).2.1)).g.ops.length
          = g.ops.length + 1 from hlen1] at this
      omega
    have hmemret : g.tensors.length ∈ (markAsReturn acd g c (.plain t)).1.returnedTensors :=
      mem_addReturned_self _ _
    have hres := anchorReturns_mem _ _ _ g.tensors.length hmemret o ho (by
      rw [hprod]
      show (getOp _ o).ctx = (getOp _ g.ops.length).ctx
      rw [← ctx_of_coreEq (opCore_anchorReturns _ _ _ o),
          ← ctx_of_coreEq (opCore_anchorReturns _ _ _ g.ops.length)]
      exact hctx) (by
      rw [hprod]
      exact hplt)
    rw [hprod] at hres
    exact hres

/-- C9 witness: the anchoring part applied to `c9G` (a constant to be
returned plus a context-less stateful op). -/
theorem claim_C9_witness :
    ∃ g2 acd2,
      acdExit false (markAsReturn ⟨[], [], some 7, 0⟩ c9G none (.plain 0)).1
          (markAsReturn ⟨[], [], some 7, 0⟩ c9G none (.plain 0)).2.1
        = Except.ok (g2, acd2) ∧
      ∀ o ∈ acd2.opsWhichMustRun,
        (getOp g2 o).ctx = (getOp g2 c9G.ops.length).ctx → o ∈ ctrl g2 c9G.ops.length :=
  (claim_C9_plain_return_anchoring c9G ⟨[], [], some 7, 0⟩ none 0
    (by intro i hi t ht; revert ht; revert t; have h2 : i < 2 := hi; interval_cases i <;> decide)
    (by decide) (by decide)).2

theorem blacklist_not_switch_merge :
    ∀ s ∈ allBlacklistedOps, s ≠ "Switch" ∧ s ≠ "Merge" := by decide

theorem contains_of_mem (l : List String) (s : String) (h : s ∈ l) :
    l.contains s = true :=
  List.elem_eq_true_of_mem h

theorem psCreate_mustRun (s inpT : Nat) (op : Operation) (st1 : EngineState) :
    (psCreate s inpT op st1).mustRun = insertIfAbsent st1.mustRun st1.g.ops.length := by
  simp only [psCreate]
  cases hl : alookup st1.lastUser (some inpT) with
  | none =>
    cases hm : alookup st1.mergeFor inpT with
    | none => rfl
    | some m => rfl
  | some lastOp =>
    cases hm : alookup st1.mergeFor inpT with
    | none => rfl
    | some m => rfl

theorem mustRun_processSwitch (i : Nat) : ∀ (f s : Nat) (st : EngineState),
    i ∉ st.mustRun → i < st.g.ops.length → i ∉ (processSwitch f s st).mustRun := by
  intro f
  induction f with
  | zero => intro s st h _; exact h
  | succ fl ih =>
    intro s st h hlt
    simp only [processSwitch]
    cases hinp : (getOp st.g s).inputs.head? with
    | none => exact h
    | some inpT =>
      dsimp only
      by_cases hC : (getTensor st.g inpT).dtype = DType.resource ∧
          (getOp st.g (getTensor st.g inpT).producer).opType = "Switch"
      · rw [if_pos hC]
        have h1 := ih ((getTensor st.g inpT).producer) st h hlt
        have hlt1 : i < (processSwitch fl (getTensor st.g inpT).producer st).g.ops.length :=
          Nat.lt_of_lt_of_le hlt (psGExt fl ((getTensor st.g inpT).producer) st).opsLen
        cases hout : (getOp st.g s).outputs.head? with
        | none => exact h1
        | some outT =>
          dsimp only
          split
          · exact h1
          · rw [psCreate_mustRun]
            rw [mem_insertIfAbsent_iff]
            rintro (hmem | rfl)
            · exact h1 hmem
            · exact absurd hlt1 (Nat.lt_irrefl _)
      · rw [if_neg hC]
        cases hout : (getOp st.g s).outputs.head? with
        | none => exact h
        | some outT =>
          dsimp only
          split
          · exact h
          · rw [psCreate_mustRun]
            rw [mem_insertIfAbsent_iff]
            rintro (hmem | rfl)
            · exact h hmem
            · exact absurd hlt (Nat.lt_irrefl _)

theorem mustRun_procOneInput (i j : Nat) (c : Option Nat)
    (acc : EngineState × List Nat × List Nat) (t : Nat)
    (h : i ∉ acc.1.mustRun) (hlt : i < acc.1.g.ops.length) :
    i ∉ (procOneInput j c acc t).1.mustRun := by
  simp only [procOneInput]
  by_cases hd : (getTensor acc.1.g t).dtype ≠ DType.resource
  · rw [if_pos hd]; exact h
  · rw [if_neg hd]
    by_cases hm : t ∈ acc.2.2
    · rw [if_pos hm]; exact h
    · rw [if_neg hm]
      dsimp only
      by_cases hsw : (getOp acc.1.g (getTensor acc.1.g t).producer).opType = "Switch"
      · rw [if_pos hsw]
        have h1 := mustRun_processSwitch i acc.1.g.ops.length
          ((getTensor acc.1.g t).producer) acc.1 h hlt
        cases hmf : alookup (processSwitch acc.1.g.ops.length
            (getTensor acc.1.g t).producer acc.1).mergeFor t with
        | none => exact h1
        | some m => exact h1
      · rw [if_neg hsw]
        cases hmf : alookup acc.1.mergeFor t with
        | none => exact h
        | some m => exact h

theorem mustRun_procFold (i j : Nat) (c : Option Nat) :
    ∀ (l : List Nat) (acc : EngineState × List Nat × List Nat),
      i ∉ acc.1.mustRun → i < acc.1.g.ops.length →
      i ∉ (l.foldl (procOneInput j c) acc).1.mustRun := by
  intro l
  induction l with
  | nil => intro acc h _; exact h
  | cons t ts ih =>
    intro acc h hlt
    show i ∉ (ts.foldl (procOneInput j c) (procOneInput j c acc t)).1.mustRun
    exact ih _ (mustRun_procOneInput i j c acc t h hlt)
      (Nat.lt_of_lt_of_le hlt (gext_procOne j c acc t).opsLen)

theorem mustRun_stepOp (st : EngineState) (p i : Nat)
    (h : i ∉ st.mustRun) (hlt : i < st.g.ops.length)
    (hbl : allBlacklistedOps.contains (getOp st.g i).opType = true)
    (hreg : st.g.registeredOps.contains (getOp st.g i).opType = true) :
    i ∉ (stepOp st p).mustRun := by
  have hst : opIsStateful (getOp st.g i) = false := by
    simp only [opIsStateful, hbl, Bool.not_true, Bool.and_false]
  simp only [stepOp]
  by_cases hwl : isInWhileLoop st.g (getOp st.g p).ctx = true
  · rw [if_pos hwl]; exact h
  · rw [if_neg hwl]
    have h1 : i ∉ (if !(st.g.registeredOps.contains (getOp st.g p).opType)
        || opIsStateful (getOp st.g p) then
          { st with mustRun := insertIfAbsent st.mustRun p } else st).mustRun := by
      by_cases hcl : (!(st.g.registeredOps.contains (getOp st.g p).opType)
          || opIsStateful (getOp st.g p)) = true
      · rw [if_pos hcl]
        show i ∉ insertIfAbsent st.mustRun p
        rw [mem_insertIfAbsent_iff]
        rintro (hm | rfl)
        · exact h hm
        · rw [hreg, hst] at hcl
          exact absurd hcl (by decide)
      · rw [if_neg hcl]; exact h
    set st1 := (if !(st.g.registeredOps.contains (getOp st.g p).opType)
        || opIsStateful (getOp st.g p) then
          { st with mustRun := insertIfAbsent st.mustRun p } else st) with hst1
    have hlt1 : i < st1.g.ops.length := by
      rw [hst1]; split
      · exact hlt
      · exact hlt
    by_cases hswg : ((getOp st.g p).opType = "Switch" ∧
        firstInputResource st.g (getOp st.g p) = true)
    · rw [if_pos hswg]; exact h1
    · rw [if_neg hswg]
      by_cases hnm : (getOp st.g p).opType = "Merge"
      · rw [if_pos hnm]
        show i ∉ [p]
        intro hm
        have hip : i = p := List.mem_singleton.mp hm
        subst hip
        rw [hnm] at hbl
        exact absurd hbl (by decide)
      · rw [if_neg hnm]
        have hfold : i ∉ ((getOp st.g p).inputs.foldl
            (procOneInput p (getOp st.g p).ctx) (st1, [], [])).1.mustRun :=
          mustRun_procFold i p (getOp st.g p).ctx (getOp st.g p).inputs (st1, [], []) h1 hlt1
        set r := (getOp st.g p).inputs.foldl (procOneInput p (getOp st.g p).ctx) (st1, [], [])
          with hr
        set stM := (match alookup r.1.lastUser none with
          | some q => { r.1 with g := addControlInput r.1.g p q }
          | none => r.1) with hstM
        have hM : i ∉ stM.mustRun := by
          rw [hstM]
          cases hl : alookup r.1.lastUser none with
          | none => exact hfold
          | some q => exact hfold
        by_cases hsent : (opIsStateful (getOp st.g p) = true ∧ r.2.2 = [] ∧
            (getOp st.g p).ctx = none)
        · rw [if_pos hsent]
          exact hM
        · rw [if_neg hsent]
          exact hfold

theorem mustRun_runFrom : ∀ (k p : Nat) (st : EngineState) (i : Nat),
    i ∉ st.mustRun → i < st.g.ops.length →
    allBlacklistedOps.contains (getOp st.g i).opType = true →
    st.g.registeredOps.contains (getOp st.g i).opType = true →
    i ∉ (runFrom st p k).mustRun := by
  intro k
  induction k with
  | zero => intro p st i h _ _ _; exact h
  | succ m ih =>
    intro p st i h hlt hbl hreg
    show i ∉ (runFrom (stepOp st p) (p + 1) m).mustRun
    have hg := gext_stepOp st p
    refine ih (p + 1) (stepOp st p) i (mustRun_stepOp st p i h hlt hbl hreg) ?_ ?_ ?_
    · exact Nat.lt_of_lt_of_le hlt hg.opsLen
    · rw [opType_of_coreEq (hg.core i hlt)]; exact hbl
    · rw [hg.regs, opType_of_coreEq (hg.core i hlt)]; exact hreg

theorem mustRun_runEngine (g : Graph) (n i : Nat)
    (hlt : i < g.ops.length)
    (hbl : allBlacklistedOps.contains (getOp g i).opType = true)
    (hreg : g.registeredOps.contains (getOp g i).opType = true) :
    i ∉ (runEngine g n).mustRun := by
  unfold runEngine
  exact mustRun_runFrom _ n (initState g) i (List.not_mem_nil i) hlt hbl hreg

theorem stepOp_plain (st : EngineState) (j : Nat)
    (hst : opIsStateful (getOp st.g j) = false)
    (hreg : st.g.registeredOps.contains (getOp st.g j).opType = true)
    (hsw : (getOp st.g j).opType ≠ "Switch")
    (hnm : (getOp st.g j).opType ≠ "Merge") :
    stepOp st j = plainConsumerStep st j := by
  simp only [stepOp, plainConsumerStep]
  by_cases hwl : isInWhileLoop st.g (getOp st.g j).ctx = true
  · rw [if_pos hwl, if_pos hwl]
  · rw [if_neg hwl, if_neg hwl]
    have hcl : ¬((!(st.g.registeredOps.contains (getOp st.g j).opType)
        || opIsStateful (getOp st.g j)) = true) := by
      rw [hreg, hst]; decide
    rw [if_neg hcl]
    rw [if_neg (show ¬((getOp st.g j).opType = "Switch" ∧
        firstInputResource st.g (getOp st.g j) = true) from fun hc => hsw hc.1)]
    rw [if_neg hnm]
    rw [if_neg (show ¬(opIsStateful (getOp st.g j) = true ∧
        ((getOp st.g j).inputs.foldl (procOneInput j (getOp st.g j).ctx)
          (st, [], [])).2.2 = [] ∧ (getOp st.g j).ctx = none) from fun hc => by
      rw [hc.1] at hst; exact absurd hst (by decide))]

/-- C7: an operation whose kind is in one of the three exemption tables and
whose kind is registered is never added to the must-run set solely because
its stateful flag is set — over a whole engine run it never enters must_run —
and its per-operation processing coincides with `plainConsumerStep`, the
exact processing applied to a registered non-stateful (non-Switch,
non-Merge) operation, so it takes part in resource-usage-chain tracking
exactly like a non-exempt operation. -/
theorem claim_C7_exempt_kinds :
    (∀ (st : EngineState) (i : Nat),
        (getOp st.g i).opType ∈ allBlacklistedOps →
        st.g.registeredOps.contains (getOp st.g i).opType = true →
        stepOp st i = plainConsumerStep st i) ∧
    (∀ (st : EngineState) (j : Nat),
        opIsStateful (getOp st.g j) = false →
        st.g.registeredOps.contains (getOp st.g j).opType = true →
        (getOp st.g j).opType ≠ "Switch" → (getOp st.g j).opType ≠ "Merge" →
        stepOp st j = plainConsumerStep st j) ∧
    (∀ (g : Graph) (n i : Nat),
        (getOp g i).opType ∈ allBlacklistedOps →
        g.registeredOps.contains (getOp g i).opType = true →
        i < g.ops.length →
        i ∉ (runEngine g n).mustRun) := by
  refine ⟨?_, ?_, ?_⟩
  · intro st i hbl hreg
    have hblc := contains_of_mem _ _ hbl
    have hst : opIsStateful (getOp st.g i) = false := by
      simp only [opIsStateful, hblc, Bool.not_true, Bool.and_false]
    exact stepOp_plain st i hst hreg
      (blacklist_not_switch_merge _ hbl).1 (blacklist_not_switch_merge _ hbl).2
  · intro st j h1 h2 h3 h4
    exact stepOp_plain st j h1 h2 h3 h4
  · intro g n i hbl hreg hlt
    exact mustRun_runEngine g n i hlt (contains_of_mem _ _ hbl) hreg

theorem claim_C7_witness :
    stepOp (initState c7G) 2 = plainConsumerStep (initState c7G) 2 ∧
    2 ∉ (runEngine c7G 0).mustRun :=
  ⟨claim_C7_exempt_kinds.1 (initState c7G) 2 (by decide) (by decide),
   claim_C7_exempt_kinds.2.2 c7G 0 2 (by decide) (by decide) (by decide)⟩

theorem listModify_oor {α : Type} : ∀ (l : List α) (i : Nat) (f : α → α),
    l.length ≤ i → listModify l i f = l := by
  intro l
  induction l with
  | nil => intro i f _; rfl
  | cons x xs ih =>
    intro i f h
    cases i with
    | zero => exact absurd h (by simp)
    | succ m =>
      show x :: listModify xs m f = x :: xs
      rw [ih m f (Nat.le_of_succ_le_succ h)]

theorem listModify_id_of {α : Type} : ∀ (l : List α) (i : Nat) (f : α → α) (d : α),
    f (l.getD i d) = l.getD i d → listModify l i f = l := by
  intro l
  induction l with
  | nil => intro i f d _; rfl
  | cons x xs ih =>
    intro i f d h
    cases i with
    | zero =>
      show f x :: xs = x :: xs
      rw [show f x = x from h]
    | succ m =>
      show x :: listModify xs m f = x :: xs
      rw [ih m f d h]

theorem addControlInput_oor (g : Graph) (a b : Nat) (h : g.ops.length ≤ a) :
    addControlInput g a b = g := by
  unfold addControlInput
  rw [listModify_oor g.ops a _ h]

theorem addControlInput_of_mem (g : Graph) (a b : Nat) (h : b ∈ ctrl g a) :
    addControlInput g a b = g := by
  unfold addControlInput
  rw [listModify_id_of g.ops a _ defaultOp
    (by rw [if_pos (show b ∈ (g.ops.getD a defaultOp).controlInputs from h)])]

theorem addControlInputs_of_mem (g : Graph) (a : Nat) :
    ∀ (bs : List Nat), (∀ b ∈ bs, b ∈ ctrl g a) → addControlInputs g a bs = g := by
  intro bs
  induction bs with
  | nil => intro _; rfl
  | cons b rest ih =>
    intro h
    show addControlInputs (addControlInput g a b) a rest = g
    rw [addControlInput_of_mem g a b (h b (List.mem_cons_self b rest))]
    exact ih (fun c hc => h c (List.mem_cons_of_mem b hc))

theorem ctrlMono_addControlInputs : ∀ (bs : List Nat) (g : Graph) (a x c : Nat),
    c ∈ ctrl g x → c ∈ ctrl (addControlInputs g a bs) x := by
  intro bs
  induction bs with
  | nil => intro g a x c h; exact h
  | cons b rest ih =>
    intro g a x c h
    show c ∈ ctrl (addControlInputs (addControlInput g a b) a rest) x
    exact ih (addControlInput g a b) a x c
      ((mem_ctrl_addControlInput_iff g a b x c).mpr (Or.inl h))

theorem addControlInputs_mem_sub : ∀ (bs : List Nat) (g : Graph) (a : Nat),
    a < g.ops.length → ∀ b ∈ bs, b ∈ ctrl (addControlInputs g a bs) a := by
  intro bs
  induction bs with
  | nil => intro g a _ b hb; cases hb
  | cons x rest ih =>
    intro g a ha b hb
    show b ∈ ctrl (addControlInputs (addControlInput g a x) a rest) a
    rcases List.mem_cons.mp hb with heq | hb2
    · rw [heq]
      exact ctrlMono_addControlInputs rest (addControlInput g a x) a a x
        ((mem_ctrl_addControlInput_iff g a x a x).mpr (Or.inr ⟨rfl, rfl, ha⟩))
    · exact ih (addControlInput g a x) a
        (by rw [addControlInput_ops_length]; exact ha) b hb2

theorem coreSame_refl (g : Graph) : coreSame g g :=
  ⟨rfl, fun _ => rfl, rfl, rfl, rfl⟩

theorem coreSame_addRight (g1 g2 : Graph) (a b : Nat) (h : coreSame g1 g2) :
    coreSame g1 (addControlInput g2 a b) := by
  obtain ⟨h1, h2, h3, h4, h5⟩ := h
  refine ⟨?_, ?_, ?_, ?_, ?_⟩
  · rw [addControlInput_ops_length]; exact h1
  · intro j; rw [opCore_addControlInput]; exact h2 j
  · rw [addControlInput_tensors]; exact h3
  · exact h4
  · exact h5

theorem coreSame_trans {g1 g2 g3 : Graph} (h1 : coreSame g1 g2) (h2 : coreSame g2 g3) :
    coreSame g1 g3 := by
  obtain ⟨a1, a2, a3, a4, a5⟩ := h1
  obtain ⟨b1, b2, b3, b4, b5⟩ := h2
  exact ⟨a1.trans b1, fun j => (a2 j).trans (b2 j), a3.trans b3, a4.trans b4, a5.trans b5⟩

theorem getTensor_congr {g1 g2 : Graph} (h : g1.tensors = g2.tensors) (t : Nat) :
    getTensor g1 t = getTensor g2 t := by
  unfold getTensor
  rw [h]

theorem hasWhileCtx_congr {g1 g2 : Graph} (h : g1.contexts = g2.contexts) :
    ∀ (f : Nat) (c : Option Nat), hasWhileCtx g1 f c = hasWhileCtx g2 f c := by
  intro f
  induction f with
  | zero =>
    intro c
    cases c with
    | none => rfl
    | some x => rfl
  | succ m ih =>
    intro c
    cases c with
    | none => rfl
    | some x =>
      have hcx : getCtx g1 x = getCtx g2 x := by unfold getCtx; rw [h]
      unfold hasWhileCtx
      rw [hcx, ih (getCtx g2 x).outer]

theorem isInWhileLoop_congr {g1 g2 : Graph} (h : g1.contexts = g2.contexts)
    (c : Option Nat) : isInWhileLoop g1 c = isInWhileLoop g2 c := by
  unfold isInWhileLoop
  rw [h, hasWhileCtx_congr h]

theorem psCreate_opsLen (s inpT : Nat) (op : Operation) (st1 : EngineState) :
    (psCreate s inpT op st1).g.ops.length = st1.g.ops.length + 1 := by
  simp only [psCreate]
  cases hl : alookup st1.lastUser (some inpT) with
  | none =>
    cases hm : alookup st1.mergeFor inpT with
    | none => exact appendMergeG_ops_length _ _ _
    | some m =>
      show (addControlInput _ m _).ops.length = _
      rw [addControlInput_ops_length]
      exact appendMergeG_ops_length _ _ _
  | some lastOp =>
    cases hm : alookup st1.mergeFor inpT with
    | none =>
      show (addControlInput _ s _).ops.length = _
      rw [addControlInput_ops_length]
      exact appendMergeG_ops_length _ _ _
    | some m =>
      show (addControlInput (addControlInput _ s _) m _).ops.length = _
      rw [addControlInput_ops_length, addControlInput_ops_length]
      exact appendMergeG_ops_length _ _ _

theorem processSwitch_len_id : ∀ (f s : Nat) (st : EngineState),
    (processSwitch f s st).g.ops.length = st.g.ops.length →
    processSwitch f s st = st := by
  intro f
  induction f with
  | zero => intro s st _; rfl
  | succ fl ih =>
    intro s st
    simp only [processSwitch]
    cases hinp : (getOp st.g s).inputs.head? with
    | none => intro _; rfl
    | some inpT =>
      dsimp only
      by_cases hC : (getTensor st.g inpT).dtype = DType.resource ∧
          (getOp st.g (getTensor st.g inpT).producer).opType = "Switch"
      · rw [if_pos hC]
        cases hout : (getOp st.g s).outputs.head? with
        | none =>
          intro hlen
          exact ih _ st hlen
        | some outT =>
          dsimp only
          by_cases hms : (alookup (processSwitch fl (getTensor st.g inpT).producer
              st).mergeFor outT).isSome = true
          · rw [if_pos hms]
            intro hlen
            exact ih _ st hlen
          · rw [if_neg hms]
            intro hlen
            rw [psCreate_opsLen] at hlen
            have h2 := (psGExt fl ((getTensor st.g inpT).producer) st).opsLen
            omega
      · rw [if_neg hC]
        cases hout : (getOp st.g s).outputs.head? with
        | none => intro _; rfl
        | some outT =>
          dsimp only
          by_cases hms : (alookup st.mergeFor outT).isSome = true
          · rw [if_pos hms]
            intro _
            rfl
          · rw [if_neg hms]
            intro hlen
            rw [psCreate_opsLen] at hlen
            omega

theorem psId_congr : ∀ (f s : Nat) (a b : EngineState),
    coreSame b.g a.g → b.lastUser = a.lastUser → b.mustRun = a.mustRun →
    b.mergeFor = a.mergeFor → processSwitch f s a = a → processSwitch f s b = b := by
  intro f
  induction f with
  | zero => intro s a b _ _ _ _ _; rfl
  | succ fl ih =>
    intro s a b hcs hlu hmr hmf hid
    obtain ⟨hlen, hcore, htens, hctx, hregs⟩ := hcs
    have hinpEq : (getOp b.g s).inputs = (getOp a.g s).inputs := inputs_of_coreEq (hcore s)
    have houtEq : (getOp b.g s).outputs = (getOp a.g s).outputs := outputs_of_coreEq (hcore s)
    simp only [processSwitch] at hid ⊢
    rw [hinpEq, houtEq]
    cases hinp : (getOp a.g s).inputs.head? with
    | none => rfl
    | some inpT =>
      rw [hinp] at hid
      dsimp only at hid ⊢
      have htinp : getTensor b.g inpT = getTensor a.g inpT := getTensor_congr htens inpT
      rw [htinp]
      have hprodT : (getOp b.g (getTensor a.g inpT).producer).opType
          = (getOp a.g (getTensor a.g inpT).producer).opType :=
        opType_of_coreEq (hcore _)
      rw [hprodT]
      by_cases hC : (getTensor a.g inpT).dtype = DType.resource ∧
          (getOp a.g (getTensor a.g inpT).producer).opType = "Switch"
      · rw [if_pos hC]
        rw [if_pos hC] at hid
        cases hout : (getOp a.g s).outputs.head? with
        | none =>
          rw [hout] at hid
          dsimp only at hid ⊢
          exact ih _ a b ⟨hlen, hcore, htens, hctx, hregs⟩ hlu hmr hmf hid
        | some outT =>
          rw [hout] at hid
          dsimp only at hid ⊢
          have hlenA : (processSwitch fl (getTensor a.g inpT).producer a).g.ops.length
              = a.g.ops.length := by
            by_cases hms : (alookup (processSwitch fl (getTensor a.g inpT).producer
                a).mergeFor outT).isSome = true
            · rw [if_pos hms] at hid
              rw [hid]
            · rw [if_neg hms] at hid
              have h1 : (psCreate s inpT (getOp a.g s)
                  (processSwitch fl (getTensor a.g inpT).producer a)).g.ops.length
                  = a.g.ops.length := by rw [hid]
              rw [psCreate_opsLen] at h1
              have h2 := (psGExt fl ((getTensor a.g inpT).producer) a).opsLen
              omega
          have hA : processSwitch fl (getTensor a.g inpT).producer a = a :=
            processSwitch_len_id fl _ a hlenA
          have hB : processSwitch fl (getTensor a.g inpT).producer b = b :=
            ih _ a b ⟨hlen, hcore, htens, hctx, hregs⟩ hlu hmr hmf hA
          rw [hA] at hid
          rw [hB, hmf]
          by_cases hms : (alookup a.mergeFor outT).isSome = true
          · rw [if_pos hms]
          · rw [if_neg hms]
            rw [if_neg hms] at hid
            have h1 : (psCreate s inpT (getOp a.g s) a).g.ops.length
                = a.g.ops.length := by rw [hid]
            rw [psCreate_opsLen] at h1
            exact absurd h1 (by omega)
      · rw [if_neg hC]
        rw [if_neg hC] at hid
        cases hout : (getOp a.g s).outputs.head? with
        | none => rfl
        | some outT =>
          rw [hout] at hid
          dsimp only at hid ⊢
          rw [hmf]
          by_cases hms : (alookup a.mergeFor outT).isSome = true
          · rw [if_pos hms]
          · rw [if_neg hms]
            rw [if_neg hms] at hid
            have h1 : (psCreate s inpT (getOp a.g s) a).g.ops.length
                = a.g.ops.length := by rw [hid]
            rw [psCreate_opsLen] at h1
            exact absurd h1 (by omega)

theorem coreSame_symm {g1 g2 : Graph} (h : coreSame g1 g2) : coreSame g2 g1 := by
  obtain ⟨h1, h2, h3, h4, h5⟩ := h
  exact ⟨h1.symm, fun j => (h2 j).symm, h3.symm, h4.symm, h5.symm⟩

theorem coreSame_addsRight (g1 g2 : Graph) (a : Nat) :
    ∀ (l : List Nat), coreSame g1 g2 → coreSame g1 (addControlInputs g2 a l) := by
  intro l
  induction l generalizing g2 with
  | nil => intro h; exact h
  | cons b rest ih =>
    intro h
    show coreSame g1 (addControlInputs (addControlInput g2 a b) a rest)
    exact ih (addControlInput g2 a b) (coreSame_addRight g1 g2 a b h)

theorem procOneInput_coreSame (p : Nat) (pc : Option Nat)
    (acc : EngineState × List Nat × List Nat) (t : Nat)
    (hplen : (procOneInput p pc acc t).1.g.ops.length = acc.1.g.ops.length) :
    coreSame (procOneInput p pc acc t).1.g acc.1.g := by
  revert hplen
  simp only [procOneInput]
  by_cases hd : (getTensor acc.1.g t).dtype ≠ DType.resource
  · rw [if_pos hd]; intro _; exact coreSame_refl _
  · rw [if_neg hd]
    by_cases hm : t ∈ acc.2.2
    · rw [if_pos hm]; intro _; exact coreSame_refl _
    · rw [if_neg hm]
      dsimp only
      set stA := (if (getOp acc.1.g (getTensor acc.1.g t).producer).opType = "Switch"
          then processSwitch acc.1.g.ops.length (getTensor acc.1.g t).producer acc.1
          else acc.1) with hstA
      cases hmf : alookup stA.mergeFor t with
      | none =>
        dsimp only
        intro hplen
        rw [hstA]
        rw [hstA] at hplen
        by_cases hsw : (getOp acc.1.g (getTensor acc.1.g t).producer).opType = "Switch"
        · rw [if_pos hsw]
          rw [if_pos hsw] at hplen
          rw [processSwitch_len_id _ _ _ hplen]
          exact coreSame_refl _
        · rw [if_neg hsw]
          exact coreSame_refl _
      | some m =>
        dsimp only
        intro hplen
        rw [addControlInput_ops_length] at hplen
        have hAcs : coreSame stA.g acc.1.g := by
          rw [hstA]
          rw [hstA] at hplen
          by_cases hsw : (getOp acc.1.g (getTensor acc.1.g t).producer).opType = "Switch"
          · rw [if_pos hsw]
            rw [if_pos hsw] at hplen
            rw [processSwitch_len_id _ _ _ hplen]
            exact coreSame_refl _
          · rw [if_neg hsw]
            exact coreSame_refl _
        exact coreSame_trans
          (coreSame_symm (coreSame_addRight stA.g stA.g m p (coreSame_refl stA.g))) hAcs

theorem procFold_coreSame (p : Nat) (pc : Option Nat) :
    ∀ (l : List Nat) (acc : EngineState × List Nat × List Nat),
      (l.foldl (procOneInput p pc) acc).1.g.ops.length = acc.1.g.ops.length →
      coreSame (l.foldl (procOneInput p pc) acc).1.g acc.1.g := by
  intro l
  induction l with
  | nil => intro acc _; exact coreSame_refl _
  | cons t ts ih =>
    intro acc hlen
    show coreSame (ts.foldl (procOneInput p pc) (procOneInput p pc acc t)).1.g acc.1.g
    have h1 := (gext_procOne p pc acc t).opsLen
    have h2 := (gext_foldProc p pc ts (procOneInput p pc acc t)).opsLen
    have hlen0 : (ts.foldl (procOneInput p pc) (procOneInput p pc acc t)).1.g.ops.length
        = acc.1.g.ops.length := hlen
    have hlen2 : (ts.foldl (procOneInput p pc) (procOneInput p pc acc t)).1.g.ops.length
        = (procOneInput p pc acc t).1.g.ops.length := by omega
    have hlen1 : (procOneInput p pc acc t).1.g.ops.length = acc.1.g.ops.length := by omega
    exact coreSame_trans (ih (procOneInput p pc acc t) hlen2)
      (procOneInput_coreSame p pc acc t hlen1)

theorem absorbFold_coreSame (i : Nat) (l : List Nat) (st : EngineState)
    (hi : i < st.g.ops.length) :
    coreSame (l.foldl (absorbOne i) st).g st.g := by
  obtain ⟨⟨h1, h2, h3, _, _⟩, _⟩ := absorbFold_char i l st hi
  have hg := gext_foldAbsorb i l st
  exact ⟨h1, h3, h2, hg.ctxs, hg.regs⟩

theorem stepOp_coreSame (st : EngineState) (p : Nat)
    (hp : p < st.g.ops.length)
    (hsl : (stepOp st p).g.ops.length = st.g.ops.length) :
    coreSame (stepOp st p).g st.g := by
  simp only [stepOp] at hsl ⊢
  by_cases hwl : isInWhileLoop st.g (getOp st.g p).ctx = true
  · rw [if_pos hwl]
    exact coreSame_refl _
  · rw [if_neg hwl] at hsl ⊢
    set st1 := (if !(st.g.registeredOps.contains (getOp st.g p).opType)
        || opIsStateful (getOp st.g p) then
          { st with mustRun := insertIfAbsent st.mustRun p } else st) with hst1
    have hst1g : st1.g = st.g := by
      rw [hst1]; split <;> rfl
    by_cases hswg : ((getOp st.g p).opType = "Switch" ∧
        firstInputResource st.g (getOp st.g p) = true)
    · rw [if_pos hswg]
      rw [hst1g]
      exact coreSame_refl _
    · rw [if_neg hswg] at hsl ⊢
      by_cases hnm : (getOp st.g p).opType = "Merge"
      · rw [if_pos hnm]
        have hp1 : p < st1.g.ops.length := by rw [hst1g]; exact hp
        have h := absorbFold_coreSame p st1.mustRun st1 hp1
        rw [hst1g] at h
        exact h
      · rw [if_neg hnm] at hsl ⊢
        set r := (getOp st.g p).inputs.foldl (procOneInput p (getOp st.g p).ctx)
          (st1, [], []) with hr
        set stM := (match alookup r.1.lastUser none with
          | some q => { r.1 with g := addControlInput r.1.g p q }
          | none => r.1) with hstM
        have hstMlen : stM.g.ops.length = r.1.g.ops.length := by
          rw [hstM]
          cases hl : alookup r.1.lastUser none with
          | none => rfl
          | some q => exact addControlInput_ops_length _ _ _
        have hlenGenM : ∀ ks : List Nat,
            (addControlInputs stM.g p ks).ops.length = stM.g.ops.length :=
          fun ks => addControlInputs_ops_length stM.g p ks
        have hlenGenR : ∀ ks : List Nat,
            (addControlInputs r.1.g p ks).ops.length = r.1.g.ops.length :=
          fun ks => addControlInputs_ops_length r.1.g p ks
        by_cases hsent : (opIsStateful (getOp st.g p) = true ∧ r.2.2 = [] ∧
            (getOp st.g p).ctx = none)
        · rw [if_pos hsent] at hsl ⊢
          dsimp only at hsl
          rw [hlenGenM, hstMlen] at hsl
          have hrcs : coreSame r.1.g st.g := by
            have h0 := procFold_coreSame p (getOp st.g p).ctx (getOp st.g p).inputs
              (st1, [], []) (by
                show r.1.g.ops.length = st1.g.ops.length
                rw [hst1g]
                exact hsl)
            rw [← hr] at h0
            dsimp only at h0
            rw [hst1g] at h0
            exact h0
          have hstMcs : coreSame stM.g st.g := by
            rw [hstM]
            cases hl : alookup r.1.lastUser none with
            | none => exact hrcs
            | some q =>
              dsimp only
              exact coreSame_trans
                (coreSame_symm (coreSame_addRight r.1.g r.1.g p q (coreSame_refl r.1.g)))
                hrcs
          exact (fun ks => coreSame_trans
            (coreSame_symm (coreSame_addsRight stM.g stM.g p ks (coreSame_refl stM.g)))
            hstMcs) _
        · rw [if_neg hsent] at hsl ⊢
          dsimp only at hsl
          rw [hlenGenR] at hsl
          have hrcs : coreSame r.1.g st.g := by
            have h0 := procFold_coreSame p (getOp st.g p).ctx (getOp st.g p).inputs
              (st1, [], []) (by
                show r.1.g.ops.length = st1.g.ops.length
                rw [hst1g]
                exact hsl)
            rw [← hr] at h0
            dsimp only at h0
            rw [hst1g] at h0
            exact h0
          exact (fun ks => coreSame_trans
            (coreSame_symm (coreSame_addsRight r.1.g r.1.g p ks (coreSame_refl r.1.g)))
            hrcs) _

theorem procOneInput_rerun (G : Graph) (p : Nat) (pc : Option Nat)
    (a b : EngineState × List Nat × List Nat) (t : Nat)
    (hbg : b.1.g = G)
    (hlu : b.1.lastUser = a.1.lastUser) (hmr : b.1.mustRun = a.1.mustRun)
    (hmf : b.1.mergeFor = a.1.mergeFor) (hacc : b.2 = a.2)
    (hcsG : coreSame G a.1.g)
    (hplen : (procOneInput p pc a t).1.g.ops.length = a.1.g.ops.length)
    (hfin : ∀ x y, y ∈ ctrl (procOneInput p pc a t).1.g x → y ∈ ctrl G x) :
    (procOneInput p pc b t).1.g = G ∧
    (procOneInput p pc b t).1.lastUser = (procOneInput p pc a t).1.lastUser ∧
    (procOneInput p pc b t).1.mustRun = (procOneInput p pc a t).1.mustRun ∧
    (procOneInput p pc b t).1.mergeFor = (procOneInput p pc a t).1.mergeFor ∧
    (procOneInput p pc b t).2 = (procOneInput p pc a t).2 := by
  obtain ⟨hLen, hCore, hTens, hCtx, hRegs⟩ := hcsG
  have htb : getTensor b.1.g t = getTensor a.1.g t := by
    rw [hbg]; exact getTensor_congr hTens t
  simp only [procOneInput] at hplen hfin ⊢
  rw [htb, hacc]
  by_cases hd : (getTensor a.1.g t).dtype ≠ DType.resource
  · rw [if_pos hd, if_pos hd]
    exact ⟨hbg, hlu, hmr, hmf, hacc⟩
  · rw [if_neg hd] at hplen hfin
    rw [if_neg hd, if_neg hd]
    by_cases hm : t ∈ a.2.2
    · rw [if_pos hm, if_pos hm]
      exact ⟨hbg, hlu, hmr, hmf, hacc⟩
    · rw [if_neg hm] at hplen hfin
      rw [if_neg hm, if_neg hm]
      dsimp only at hplen hfin ⊢
      have hprodOp : (getOp b.1.g (getTensor a.1.g t).producer).opType
          = (getOp a.1.g (getTensor a.1.g t).producer).opType := by
        rw [hbg]; exact opType_of_coreEq (hCore _)
      rw [hprodOp]
      by_cases hsw : (getOp a.1.g (getTensor a.1.g t).producer).opType = "Switch"
      · rw [if_pos hsw] at hplen hfin
        rw [if_pos hsw, if_pos hsw]
        have hfuel : b.1.g.ops.length = a.1.g.ops.length := by rw [hbg]; exact hLen
        rw [hfuel]
        set stA := processSwitch a.1.g.ops.length (getTensor a.1.g t).producer a.1
          with hstA
        cases hmfa0 : alookup stA.mergeFor t with
        | none =>
          rw [hmfa0] at hplen hfin
          dsimp only at hplen hfin
          have hAid : stA = a.1 := processSwitch_len_id _ _ _ hplen
          have hBid : processSwitch a.1.g.ops.length (getTensor a.1.g t).producer b.1
              = b.1 :=
            psId_congr _ _ a.1 b.1 (by rw [hbg]; exact ⟨hLen, hCore, hTens, hCtx, hRegs⟩)
              hlu hmr hmf (by rw [← hstA]; exact hAid)
          rw [hBid]
          rw [hAid] at hmfa0 ⊢
          rw [hlu, hmf, hmfa0]
          dsimp only
          cases hlua : alookup a.1.lastUser (some t) with
          | none =>
            dsimp only
            refine ⟨?_, ?_, ?_, ?_, ?_⟩ <;>
              first
                | rfl
                | exact hbg
                | rw [hlu]
                | rw [hmr]
                | rw [hmf]
          | some lastOp =>
            dsimp only
            have hctxEq : (getOp b.1.g lastOp).ctx = (getOp a.1.g lastOp).ctx := by
              rw [hbg]; exact ctx_of_coreEq (hCore lastOp)
            rw [hctxEq]
            refine ⟨?_, ?_, ?_, ?_, ?_⟩ <;>
              first
                | rfl
                | exact hbg
                | rw [hlu]
                | rw [hmr]
                | rw [hmf]
        | some m =>
          rw [hmfa0] at hplen hfin
          dsimp only at hplen hfin
          rw [addControlInput_ops_length] at hplen
          have hAid : stA = a.1 := processSwitch_len_id _ _ _ hplen
          have hBid : processSwitch a.1.g.ops.length (getTensor a.1.g t).producer b.1
              = b.1 :=
            psId_congr _ _ a.1 b.1 (by rw [hbg]; exact ⟨hLen, hCore, hTens, hCtx, hRegs⟩)
              hlu hmr hmf (by rw [← hstA]; exact hAid)
          rw [hBid]
          rw [hAid] at hmfa0 hfin ⊢
          rw [hlu, hmf, hmfa0]
          dsimp only
          have hGeq : addControlInput b.1.g m p = G := by
            rw [hbg]
            by_cases hmlt : m < a.1.g.ops.length
            · exact addControlInput_of_mem G m p (hfin m p
                ((mem_ctrl_addControlInput_iff a.1.g m p m p).mpr
                  (Or.inr ⟨rfl, rfl, hmlt⟩)))
            · exact addControlInput_oor G m p (by omega)
          cases hlua : alookup a.1.lastUser (some t) with
          | none =>
            dsimp only
            refine ⟨?_, ?_, ?_, ?_, ?_⟩ <;>
              first
                | rfl
                | exact hGeq
                | rw [hlu]
                | rw [hmr]
                | rw [hmf]
          | some lastOp =>
            dsimp only
            have hctxEq : (getOp b.1.g lastOp).ctx = (getOp a.1.g lastOp).ctx := by
              rw [hbg]; exact ctx_of_coreEq (hCore lastOp)
            rw [hctxEq]
            refine ⟨?_, ?_, ?_, ?_, ?_⟩ <;>
              first
                | rfl
                | exact hGeq
                | rw [hlu]
                | rw [hmr]
                | rw [hmf]
      · rw [if_neg hsw] at hplen hfin
        rw [if_neg hsw, if_neg hsw]
        rw [hlu, hmf]
        cases hmfa0 : alookup a.1.mergeFor t with
        | none =>
          rw [hmfa0] at hfin
          dsimp only at hfin ⊢
          cases hlua : alookup a.1.lastUser (some t) with
          | none =>
            dsimp only
            refine ⟨?_, ?_, ?_, ?_, ?_⟩ <;>
              first
                | rfl
                | exact hbg
                | rw [hlu]
                | rw [hmr]
                | rw [hmf]
          | some lastOp =>
            dsimp only
            have hctxEq : (getOp b.1.g lastOp).ctx = (getOp a.1.g lastOp).ctx := by
              rw [hbg]; exact ctx_of_coreEq (hCore lastOp)
            rw [hctxEq]
            refine ⟨?_, ?_, ?_, ?_, ?_⟩ <;>
              first
                | rfl
                | exact hbg
                | rw [hlu]
                | rw [hmr]
                | rw [hmf]
        | some m =>
          rw [hmfa0] at hfin
          dsimp only at hfin ⊢
          have hGeq : addControlInput b.1.g m p = G := by
            rw [hbg]
            by_cases hmlt : m < a.1.g.ops.length
            · exact addControlInput_of_mem G m p (hfin m p
                ((mem_ctrl_addControlInput_iff a.1.g m p m p).mpr
                  (Or.inr ⟨rfl, rfl, hmlt⟩)))
            · exact addControlInput_oor G m p (by omega)
          cases hlua : alookup a.1.lastUser (some t) with
          | none =>
            dsimp only
            refine ⟨?_, ?_, ?_, ?_, ?_⟩ <;>
              first
                | rfl
                | exact hGeq
                | rw [hlu]
                | rw [hmr]
                | rw [hmf]
          | some lastOp =>
            dsimp only
            have hctxEq : (getOp b.1.g lastOp).ctx = (getOp a.1.g lastOp).ctx := by
              rw [hbg]; exact ctx_of_coreEq (hCore lastOp)
            rw [hctxEq]
            refine ⟨?_, ?_, ?_, ?_, ?_⟩ <;>
              first
                | rfl
                | exact hGeq
                | rw [hlu]
                | rw [hmr]
                | rw [hmf]

theorem engineState_ext {s1 s2 : EngineState} (h1 : s1.g = s2.g)
    (h2 : s1.lastUser = s2.lastUser) (h3 : s1.mustRun = s2.mustRun)
    (h4 : s1.mergeFor = s2.mergeFor) : s1 = s2 := by
  cases s1
  cases s2
  dsimp at h1 h2 h3 h4
  rw [h1, h2, h3, h4]

theorem procFold_rerun (G : Graph) (p : Nat) (pc : Option Nat) :
    ∀ (l : List Nat) (a b : EngineState × List Nat × List Nat),
      b.1.g = G → b.1.lastUser = a.1.lastUser → b.1.mustRun = a.1.mustRun →
      b.1.mergeFor = a.1.mergeFor → b.2 = a.2 →
      coreSame G a.1.g →
      (l.foldl (procOneInput p pc) a).1.g.ops.length = a.1.g.ops.length →
      (∀ x y, y ∈ ctrl (l.foldl (procOneInput p pc) a).1.g x → y ∈ ctrl G x) →
      (l.foldl (procOneInput p pc) b).1.g = G ∧
      (l.foldl (procOneInput p pc) b).1.lastUser
        = (l.foldl (procOneInput p pc) a).1.lastUser ∧
      (l.foldl (procOneInput p pc) b).1.mustRun
        = (l.foldl (procOneInput p pc) a).1.mustRun ∧
      (l.foldl (procOneInput p pc) b).1.mergeFor
        = (l.foldl (procOneInput p pc) a).1.mergeFor ∧
      (l.foldl (procOneInput p pc) b).2 = (l.foldl (procOneInput p pc) a).2 := by
  intro l
  induction l with
  | nil => intro a b h1 h2 h3 h4 h5 _ _ _; exact ⟨h1, h2, h3, h4, h5⟩
  | cons t ts ih =>
    intro a b h1 h2 h3 h4 h5 hcs hlen hfin
    have hlen0 : (ts.foldl (procOneInput p pc) (procOneInput p pc a t)).1.g.ops.length
        = a.1.g.ops.length := hlen
    have hfin0 : ∀ x y,
        y ∈ ctrl (ts.foldl (procOneInput p pc) (procOneInput p pc a t)).1.g x →
        y ∈ ctrl G x := hfin
    have hm1 := (gext_procOne p pc a t).opsLen
    have hm2 := (gext_foldProc p pc ts (procOneInput p pc a t)).opsLen
    have hplen_t : (procOneInput p pc a t).1.g.ops.length = a.1.g.ops.length := by omega
    have hlen1 : (ts.foldl (procOneInput p pc) (procOneInput p pc a t)).1.g.ops.length
        = (procOneInput p pc a t).1.g.ops.length := by omega
    have hfin_t : ∀ x y, y ∈ ctrl (procOneInput p pc a t).1.g x → y ∈ ctrl G x :=
      fun x y hy => hfin0 x y
        ((gext_foldProc p pc ts (procOneInput p pc a t)).ctrlMono x y hy)
    have step := procOneInput_rerun G p pc a b t h1 h2 h3 h4 h5
      ⟨hcs.1, hcs.2.1, hcs.2.2.1, hcs.2.2.2.1, hcs.2.2.2.2⟩ hplen_t hfin_t
    have hcs2 : coreSame G (procOneInput p pc a t).1.g :=
      coreSame_trans hcs (coreSame_symm (procOneInput_coreSame p pc a t hplen_t))
    exact ih (procOneInput p pc a t) (procOneInput p pc b t) step.1 step.2.1
      step.2.2.1 step.2.2.2.1 step.2.2.2.2 hcs2 hlen1 hfin0

theorem absorbOne_rerun (G : Graph) (i : Nat) (a b : EngineState) (o : Nat)
    (hbg : b.g = G) (hlu : b.lastUser = a.lastUser) (hmr : b.mustRun = a.mustRun)
    (hmf : b.mergeFor = a.mergeFor) (hcs : coreSame G a.g)
    (hi : i < a.g.ops.length)
    (hfin : ∀ x y, y ∈ ctrl (absorbOne i a o).g x → y ∈ ctrl G x) :
    (absorbOne i b o).g = G ∧
    (absorbOne i b o).lastUser = (absorbOne i a o).lastUser ∧
    (absorbOne i b o).mustRun = (absorbOne i a o).mustRun ∧
    (absorbOne i b o).mergeFor = (absorbOne i a o).mergeFor := by
  obtain ⟨hLen, hCore, hTens, hCtx, hRegs⟩ := hcs
  have hGeq : addControlInput b.g i o = G := by
    rw [hbg]
    exact addControlInput_of_mem G i o (hfin i o
      ((mem_ctrl_addControlInput_iff a.g i o i o).mpr (Or.inr ⟨rfl, rfl, hi⟩)))
  have hinps : (getOp (addControlInput b.g i o) o).inputs
      = (getOp (addControlInput a.g i o) o).inputs := by
    rw [inputs_of_coreEq (opCore_addControlInput b.g i o o),
        inputs_of_coreEq (opCore_addControlInput a.g i o o), hbg]
    exact inputs_of_coreEq (hCore o)
  simp only [absorbOne]
  refine ⟨hGeq, ?_, hmr, hmf⟩
  rw [hinps, hlu]

theorem absorbFold_rerun (G : Graph) (i : Nat) :
    ∀ (l : List Nat) (a b : EngineState),
      b.g = G → b.lastUser = a.lastUser → b.mustRun = a.mustRun →
      b.mergeFor = a.mergeFor → coreSame G a.g → i < a.g.ops.length →
      (∀ x y, y ∈ ctrl (l.foldl (absorbOne i) a).g x → y ∈ ctrl G x) →
      (l.foldl (absorbOne i) b).g = G ∧
      (l.foldl (absorbOne i) b).lastUser = (l.foldl (absorbOne i) a).lastUser ∧
      (l.foldl (absorbOne i) b).mustRun = (l.foldl (absorbOne i) a).mustRun ∧
      (l.foldl (absorbOne i) b).mergeFor = (l.foldl (absorbOne i) a).mergeFor := by
  intro l
  induction l with
  | nil => intro a b h1 h2 h3 h4 _ _ _; exact ⟨h1, h2, h3, h4⟩
  | cons o os ih =>
    intro a b h1 h2 h3 h4 hcs hi hfin
    have hfin0 : ∀ x y, y ∈ ctrl (os.foldl (absorbOne i) (absorbOne i a o)).g x →
        y ∈ ctrl G x := hfin
    have hfin_o : ∀ x y, y ∈ ctrl (absorbOne i a o).g x → y ∈ ctrl G x :=
      fun x y hy => hfin0 x y ((gext_foldAbsorb i os (absorbOne i a o)).ctrlMono x y hy)
    have step := absorbOne_rerun G i a b o h1 h2 h3 h4 hcs hi hfin_o
    have hcs2 : coreSame G (absorbOne i a o).g :=
      coreSame_addRight G a.g i o hcs
    have hi2 : i < (absorbOne i a o).g.ops.length := by
      show i < (addControlInput a.g i o).ops.length
      rw [addControlInput_ops_length]
      exact hi
    exact ih (absorbOne i a o) (absorbOne i b o) step.1 step.2.1 step.2.2.1
      step.2.2.2 hcs2 hi2 hfin0

theorem stepOp_rerun (G : Graph) (st : EngineState) (p : Nat)
    (hp : p < st.g.ops.length)
    (hcs : coreSame G st.g)
    (hsl : (stepOp st p).g.ops.length = st.g.ops.length)
    (hfin : ∀ x y, y ∈ ctrl (stepOp st p).g x → y ∈ ctrl G x) :
    stepOp ⟨G, st.lastUser, st.mustRun, st.mergeFor⟩ p =
      ⟨G, (stepOp st p).lastUser, (stepOp st p).mustRun, (stepOp st p).mergeFor⟩ := by
  obtain ⟨hLen, hCore, hTens, hCtx, hRegs⟩ := hcs
  have hcsAll : coreSame G st.g := ⟨hLen, hCore, hTens, hCtx, hRegs⟩
  set SA := stepOp st p with hSA
  simp only [stepOp] at hSA ⊢
  dsimp only
  have hctxp : (getOp G p).ctx = (getOp st.g p).ctx := ctx_of_coreEq (hCore p)
  have hois : opIsStateful (getOp G p) = opIsStateful (getOp st.g p) := by
    unfold opIsStateful
    rw [isStateful_of_coreEq (hCore p), opType_of_coreEq (hCore p)]
  have hfir : firstInputResource G (getOp G p) = firstInputResource st.g (getOp st.g p) := by
    unfold firstInputResource
    rw [inputs_of_coreEq (hCore p)]
    cases hh : (getOp st.g p).inputs.head? with
    | none => rfl
    | some t =>
      dsimp only
      rw [getTensor_congr hTens t]
  rw [hctxp, isInWhileLoop_congr hCtx ((getOp st.g p).ctx), hRegs, hois, hfir,
      opType_of_coreEq (hCore p), inputs_of_coreEq (hCore p)]
  by_cases hwl : isInWhileLoop st.g (getOp st.g p).ctx = true
  · rw [if_pos hwl] at hSA ⊢
    rw [hSA]
  · rw [if_neg hwl] at hSA ⊢
    have hnormA : (if (!st.g.registeredOps.contains (getOp st.g p).opType
        || opIsStateful (getOp st.g p)) = true then
          { st with mustRun := insertIfAbsent st.mustRun p } else st)
        = { st with mustRun := if (!st.g.registeredOps.contains (getOp st.g p).opType
            || opIsStateful (getOp st.g p)) = true then insertIfAbsent st.mustRun p
            else st.mustRun } := by
      by_cases h : (!st.g.registeredOps.contains (getOp st.g p).opType
          || opIsStateful (getOp st.g p)) = true
      · rw [if_pos h, if_pos h]
      · rw [if_neg h, if_neg h]
    have hnormB : (if (!st.g.registeredOps.contains (getOp st.g p).opType
        || opIsStateful (getOp st.g p)) = true then
          { (⟨G, st.lastUser, st.mustRun, st.mergeFor⟩ : EngineState) with
            mustRun := insertIfAbsent st.mustRun p }
          else (⟨G, st.lastUser, st.mustRun, st.mergeFor⟩ : EngineState))
        = (⟨G, st.lastUser, if (!st.g.registeredOps.contains (getOp st.g p).opType
            || opIsStateful (getOp st.g p)) = true then insertIfAbsent st.mustRun p
            else st.mustRun, st.mergeFor⟩ : EngineState) := by
      by_cases h : (!st.g.registeredOps.contains (getOp st.g p).opType
          || opIsStateful (getOp st.g p)) = true
      · rw [if_pos h, if_pos h]
      · rw [if_neg h, if_neg h]
    rw [hnormA] at hSA
    rw [hnormB]
    set MRv := (if (!st.g.registeredOps.contains (getOp st.g p).opType
        || opIsStateful (getOp st.g p)) = true then insertIfAbsent st.mustRun p
        else st.mustRun) with hMRv
    by_cases hswg : ((getOp st.g p).opType = "Switch" ∧
        firstInputResource st.g (getOp st.g p) = true)
    · rw [if_pos hswg] at hSA ⊢
      rw [hSA]
    · rw [if_neg hswg] at hSA ⊢
      by_cases hnm : (getOp st.g p).opType = "Merge"
      · rw [if_pos hnm] at hSA ⊢
        have hSAg : SA.g = (({ st with mustRun := MRv } : EngineState).mustRun.foldl
            (absorbOne p) { st with mustRun := MRv }).g := by rw [hSA]
        have habs := absorbFold_rerun G p
          (({ st with mustRun := MRv } : EngineState).mustRun)
          { st with mustRun := MRv } ⟨G, st.lastUser, MRv, st.mergeFor⟩
          rfl rfl rfl rfl hcsAll hp
          (fun x y hy => hfin x y (by rw [hSAg]; exact hy))
        have hFB : (({ st with mustRun := MRv } : EngineState).mustRun.foldl
              (absorbOne p) (⟨G, st.lastUser, MRv, st.mergeFor⟩ : EngineState))
            = ⟨G,
              (({ st with mustRun := MRv } : EngineState).mustRun.foldl
                (absorbOne p) { st with mustRun := MRv }).lastUser,
              (({ st with mustRun := MRv } : EngineState).mustRun.foldl
                (absorbOne p) { st with mustRun := MRv }).mustRun,
              (({ st with mustRun := MRv } : EngineState).mustRun.foldl
                (absorbOne p) { st with mustRun := MRv }).mergeFor⟩ :=
          engineState_ext habs.1 habs.2.1 habs.2.2.1 habs.2.2.2
        rw [show (⟨G, st.lastUser, MRv, st.mergeFor⟩ : EngineState).mustRun
            = ({ st with mustRun := MRv } : EngineState).mustRun from rfl] at hFB ⊢
        rw [hFB, hSA]
      · rw [if_neg hnm] at hSA ⊢
        set ST1A := ({ st with mustRun := MRv } : EngineState) with hST1A
        set ST1B := (⟨G, st.lastUser, MRv, st.mergeFor⟩ : EngineState) with hST1B
        set RA := ((getOp st.g p).inputs.foldl (procOneInput p (getOp st.g p).ctx)
          (ST1A, [], [])) with hRAdef
        set RB := ((getOp st.g p).inputs.foldl (procOneInput p (getOp st.g p).ctx)
          (ST1B, [], [])) with hRBdef
        have hSAg_len : SA.g.ops.length = RA.1.g.ops.length := by
          rw [hSA]
          dsimp only
          rw [addControlInputs_ops_length]
          by_cases hs : (opIsStateful (getOp st.g p) = true ∧ RA.2.2 = [] ∧
              (getOp st.g p).ctx = none)
          · rw [if_pos hs]
            cases halu : alookup RA.1.lastUser none with
            | none => rfl
            | some q =>
              dsimp only
              rw [addControlInput_ops_length]
          · rw [if_neg hs]
        have hlenRA : RA.1.g.ops.length = ST1A.g.ops.length :=
          hSAg_len.symm.trans hsl
        have hfinRA : ∀ x y, y ∈ ctrl RA.1.g x → y ∈ ctrl G x := by
          intro x y hy
          refine hfin x y ?_
          rw [hSA]
          dsimp only
          refine ctrlMono_addControlInputs _ _ _ _ _ ?_
          by_cases hs : (opIsStateful (getOp st.g p) = true ∧ RA.2.2 = [] ∧
              (getOp st.g p).ctx = none)
          · rw [if_pos hs]
            cases halu : alookup RA.1.lastUser none with
            | none => exact hy
            | some q =>
              dsimp only
              exact (mem_ctrl_addControlInput_iff RA.1.g p q x y).mpr (Or.inl hy)
          · rw [if_neg hs]
            exact hy
        have hcsRA : coreSame G RA.1.g :=
          coreSame_trans hcsAll (coreSame_symm (procFold_coreSame p (getOp st.g p).ctx
            (getOp st.g p).inputs (ST1A, [], []) hlenRA))
        have hsim := procFold_rerun G p (getOp st.g p).ctx (getOp st.g p).inputs
          (ST1A, [], []) (ST1B, [], []) rfl rfl rfl rfl rfl hcsAll hlenRA hfinRA
        have hRB1 : RB.1 = ⟨G, RA.1.lastUser, RA.1.mustRun, RA.1.mergeFor⟩ :=
          engineState_ext hsim.1 hsim.2.1 hsim.2.2.1 hsim.2.2.2.1
        have hRB2 : RB.2 = RA.2 := hsim.2.2.2.2
        rw [hRB1, hRB2]
        dsimp only
        have hplt : p < RA.1.g.ops.length := by
          rw [hlenRA]
          exact hp
        by_cases hs : (opIsStateful (getOp st.g p) = true ∧ RA.2.2 = [] ∧
            (getOp st.g p).ctx = none)
        · rw [if_pos hs] at hSA ⊢
          cases halu : alookup RA.1.lastUser none with
          | none =>
            rw [halu] at hSA
            dsimp only at hSA ⊢
            have hKeep : RA.2.1.filter (fun c =>
                  decide ((getOp G c).ctx = (getOp st.g p).ctx))
                = RA.2.1.filter (fun c =>
                  decide ((getOp RA.1.g c).ctx = (getOp st.g p).ctx)) :=
              List.filter_congr (fun c _ => by rw [ctx_of_coreEq (hcsRA.2.1 c)])
            have hGfin : addControlInputs G p (RA.2.1.filter (fun c =>
                decide ((getOp RA.1.g c).ctx = (getOp st.g p).ctx))) = G := by
              refine addControlInputs_of_mem G p _ (fun b hb => ?_)
              refine hfin p b ?_
              rw [hSA]
              dsimp only
              exact addControlInputs_mem_sub _ _ _ hplt b hb
            rw [hSA]
            dsimp only
            rw [hKeep, hGfin]
          | some q =>
            rw [halu] at hSA
            dsimp only at hSA ⊢
            have hGq : addControlInput G p q = G := by
              refine addControlInput_of_mem G p q (hfin p q ?_)
              rw [hSA]
              dsimp only
              refine ctrlMono_addControlInputs _ _ _ _ _ ?_
              exact (mem_ctrl_addControlInput_iff RA.1.g p q p q).mpr
                (Or.inr ⟨rfl, rfl, hplt⟩)
            rw [hGq]
            have hcsRA2 : coreSame G (addControlInput RA.1.g p q) :=
              coreSame_addRight G RA.1.g p q hcsRA
            have hKeep : RA.2.1.filter (fun c =>
                  decide ((getOp G c).ctx = (getOp st.g p).ctx))
                = RA.2.1.filter (fun c =>
                  decide ((getOp (addControlInput RA.1.g p q) c).ctx
                    = (getOp st.g p).ctx)) :=
              List.filter_congr (fun c _ => by rw [ctx_of_coreEq (hcsRA2.2.1 c)])
            have hGfin : addControlInputs G p (RA.2.1.filter (fun c =>
                decide ((getOp (addControlInput RA.1.g p q) c).ctx
                  = (getOp st.g p).ctx))) = G := by
              refine addControlInputs_of_mem G p _ (fun b hb => ?_)
              refine hfin p b ?_
              rw [hSA]
              dsimp only
              refine addControlInputs_mem_sub _ _ _ ?_ b hb
              rw [addControlInput_ops_length]
              exact hplt
            rw [hSA]
            dsimp only
            rw [hKeep, hGfin]
        · rw [if_neg hs] at hSA ⊢
          have hKeep : RA.2.1.filter (fun c =>
                decide ((getOp G c).ctx = (getOp st.g p).ctx))
              = RA.2.1.filter (fun c =>
                decide ((getOp RA.1.g c).ctx = (getOp st.g p).ctx)) :=
            List.filter_congr (fun c _ => by rw [ctx_of_coreEq (hcsRA.2.1 c)])
          have hGfin : addControlInputs G p (RA.2.1.filter (fun c =>
              decide ((getOp RA.1.g c).ctx = (getOp st.g p).ctx))) = G := by
            refine addControlInputs_of_mem G p _ (fun b hb => ?_)
            refine hfin p b ?_
            rw [hSA]
            dsimp only
            exact addControlInputs_mem_sub _ _ _ hplt b hb
          rw [hSA]
          dsimp only
          rw [hKeep, hGfin]

theorem runFrom_coreSame : ∀ (m p : Nat) (st : EngineState),
    (runFrom st p m).g.ops.length = st.g.ops.length →
    (∀ q, p ≤ q → q < p + m → q < st.g.ops.length) →
    coreSame (runFrom st p m).g st.g := by
  intro m
  induction m with
  | zero => intro p st _ _; exact coreSame_refl _
  | succ k ih =>
    intro p st hlen hq
    show coreSame (runFrom (stepOp st p) (p + 1) k).g st.g
    have h1 := (gext_stepOp st p).opsLen
    have h2 := (gext_runFrom k (p + 1) (stepOp st p)).opsLen
    have hlen0 : (runFrom (stepOp st p) (p + 1) k).g.ops.length = st.g.ops.length := hlen
    have hsl : (stepOp st p).g.ops.length = st.g.ops.length := by omega
    have hlen1 : (runFrom (stepOp st p) (p + 1) k).g.ops.length
        = (stepOp st p).g.ops.length := by omega
    have hp : p < st.g.ops.length := hq p (Nat.le_refl p) (by omega)
    refine coreSame_trans (ih (p + 1) (stepOp st p) hlen1 ?_) (stepOp_coreSame st p hp hsl)
    intro q hq1 hq2
    rw [hsl]
    exact hq q (by omega) (by omega)

theorem runFrom_rerun : ∀ (m p : Nat) (st : EngineState) (G : Graph),
    coreSame G st.g →
    (runFrom st p m).g.ops.length = st.g.ops.length →
    (∀ x y, y ∈ ctrl (runFrom st p m).g x → y ∈ ctrl G x) →
    (∀ q, p ≤ q → q < p + m → q < st.g.ops.length) →
    runFrom ⟨G, st.lastUser, st.mustRun, st.mergeFor⟩ p m =
      ⟨G, (runFrom st p m).lastUser, (runFrom st p m).mustRun,
        (runFrom st p m).mergeFor⟩ := by
  intro m
  induction m with
  | zero => intro p st G _ _ _ _; rfl
  | succ k ih =>
    intro p st G hcs hlen hfin hq
    show runFrom (stepOp ⟨G, st.lastUser, st.mustRun, st.mergeFor⟩ p) (p + 1) k = _
    have h1 := (gext_stepOp st p).opsLen
    have h2 := (gext_runFrom k (p + 1) (stepOp st p)).opsLen
    have hlen0 : (runFrom (stepOp st p) (p + 1) k).g.ops.length = st.g.ops.length := hlen
    have hsl : (stepOp st p).g.ops.length = st.g.ops.length := by omega
    have hfin0 : ∀ x y, y ∈ ctrl (runFrom (stepOp st p) (p + 1) k).g x → y ∈ ctrl G x :=
      hfin
    have hfinStep : ∀ x y, y ∈ ctrl (stepOp st p).g x → y ∈ ctrl G x :=
      fun x y hy => hfin0 x y ((gext_runFrom k (p + 1) (stepOp st p)).ctrlMono x y hy)
    have hp : p < st.g.ops.length := hq p (Nat.le_refl p) (by omega)
    have hstep := stepOp_rerun G st p hp hcs hsl hfinStep
    rw [hstep]
    have hcs2 : coreSame G (stepOp st p).g :=
      coreSame_trans hcs (coreSame_symm (stepOp_coreSame st p hp hsl))
    have hlen1 : (runFrom (stepOp st p) (p + 1) k).g.ops.length
        = (stepOp st p).g.ops.length := by omega
    have hq2 : ∀ q, p + 1 ≤ q → q < (p + 1) + k → q < (stepOp st p).g.ops.length := by
      intro q hq1 hq2'
      rw [hsl]
      exact hq q (by omega) (by omega)
    exact ih (p + 1) (stepOp st p) G hcs2 hlen1 hfin0 hq2

/-- C5: re-running the dependency-insertion engine over an operation slice it
has already processed, with the slice unchanged (the first pass appended no
operations, so the slice `graph.get_operations()[n:]` is the same at both
invocations; equivalently the operation count is unchanged), adds zero
additional control edges and zero additional operations: the whole graph is
reproduced exactly.  The re-run starts from fresh
`last_op_using_resource_tensor` / `ops_which_must_run` / `merge_for_resource`
maps, exactly as `__exit__` allocates them locally. -/
theorem claim_C5_rerun_idempotent (g : Graph) (n : Nat)
    (hlen : (runEngine g n).g.ops.length = g.ops.length) :
    (runEngine (runEngine g n).g n).g = (runEngine g n).g := by
  unfold runEngine at hlen ⊢
  have hq : ∀ q, n ≤ q → q < n + (g.ops.length - n) → q < (initState g).g.ops.length := by
    intro q h1 h2
    show q < g.ops.length
    omega
  have hcount : (runFrom (initState g) n (g.ops.length - n)).g.ops.length - n
      = g.ops.length - n := by rw [hlen]
  rw [hcount]
  have hcs : coreSame (runFrom (initState g) n (g.ops.length - n)).g (initState g).g :=
    runFrom_coreSame (g.ops.length - n) n (initState g) hlen hq
  have hmain := runFrom_rerun (g.ops.length - n) n (initState g)
    (runFrom (initState g) n (g.ops.length - n)).g hcs hlen
    (fun x y hy => hy) hq
  exact congrArg EngineState.g hmain

theorem claim_C5_witness : (runEngine (runEngine seqDemoG 0).g 0).g = (runEngine seqDemoG 0).g :=
  claim_C5_rerun_idempotent seqDemoG 0 (by decide)

